import Mathlib

/-!
Verification of the token-usage and cost-accounting subsystem of the
e2e-agent repository (`src/agent/token_usage.py`), shallowly embedded in
Lean 4.  Machine floats are modelled by exact rationals; Python's
`round(x, n)` (round-half-to-even on the value) is modelled by `pyRound`.
File-system effects are modelled by explicit state passing, and the tiered
pricing lookup by an explicit environment record.
-/

namespace TokenUsage

/-! ## Python-style rounding on exact rationals -/

/-- Round to the nearest integer, ties to even: the rounding mode of
Python's builtin `round` (applied here to exact rational values). -/
def roundHalfEven (q : ℚ) : ℤ :=
  let f := ⌊q⌋
  let r := q - (f : ℚ)
  if r < 1/2 then f
  else if r > 1/2 then f + 1
  else if Even f then f else f + 1

/-- Python's `round(x, n)` on exact rational values. -/
def pyRound (q : ℚ) (n : ℕ) : ℚ :=
  (roundHalfEven (q * 10 ^ n) : ℚ) / 10 ^ n

/-! ## Pricing data model (`token_usage.py`) -/

/-- Per-million-token pricing rates, the value shape returned by
`PricingCalculator.get_rates` and stored in `FALLBACK_PRICING`. -/
structure Rates where
  input_rate : ℚ
  output_rate : ℚ
  cache_write_rate : ℚ
  cache_read_rate : ℚ
  deriving Repr, DecidableEq

/-- The hardcoded `FALLBACK_PRICING` table (dict in insertion order). -/
def FALLBACK_PRICING : List (String × Rates) :=
  [ ("claude-sonnet-4-5-20250929", ⟨3.00, 15.00, 3.75, 0.30⟩)
  , ("claude-opus-4-5-20251101", ⟨5.00, 25.00, 6.25, 0.50⟩)
  , ("claude-opus-4-20250514", ⟨15.00, 75.00, 18.75, 1.50⟩)
  , ("claude-haiku-4-5-20251001", ⟨1.00, 5.00, 1.25, 0.10⟩)
  , ("claude-3-5-sonnet-20241022", ⟨3.00, 15.00, 3.75, 0.30⟩)
  , ("claude-3-5-haiku-20241022", ⟨0.80, 4.00, 1.00, 0.08⟩) ]

/-! ## Python string primitives

`str.replace` and `str.split(sep)[0]`, re-implemented on character lists
with Python's left-to-right non-overlapping scan semantics. -/

/-- Worker for `replaceList`, structurally recursive on a fuel argument so
that it evaluates inside the kernel; with `fuel ≥ s.length` the fuel never
runs out (each step consumes at least one character of `s`). -/
def replaceListAux (old new : List Char) : ℕ → List Char → List Char
  | 0, s => s
  | _, [] => []
  | fuel+1, c :: rest =>
    if old.isPrefixOf (c :: rest) then
      new ++ replaceListAux old new fuel (rest.drop (old.length - 1))
    else
      c :: replaceListAux old new fuel rest

/-- Python `s.replace(old, new)`: replace non-overlapping occurrences of
`old` left to right (for non-empty `old`). -/
def replaceList (old new s : List Char) : List Char :=
  replaceListAux old new s.length s

/-- Python `s.split(sep)[0]` for non-empty `sep`: the text up to the first
occurrence of `sep` (the whole text when `sep` does not occur). -/
def takeUntilSeq (sep : List Char) : List Char → List Char
  | [] => []
  | c :: rest =>
    if sep.isPrefixOf (c :: rest) then []
    else c :: takeUntilSeq sep rest

/-- Does the sequence `pat` occur anywhere in `s`?  (Python `pat in s`,
`re.search` for a literal pattern.) -/
def occursSeq (pat : List Char) : List Char → Bool
  | [] => pat.isEmpty
  | c :: rest => pat.isPrefixOf (c :: rest) || occursSeq pat rest

/-- Python `s.replace(old, new)` on strings. -/
def pyReplace (s old new : String) : String :=
  String.mk (replaceList old.data new.data s.data)

/-- Python `sub in s` on strings. -/
def pyContains (s sub : String) : Bool :=
  occursSeq sub.data s.data

/-- Python `s.split(sep)[0]` on strings. -/
def pySplitHead (s sep : String) : String :=
  String.mk (takeUntilSeq sep.data s.data)

/-! ## PricingCalculator -/

/-- `PricingCalculator._get_base_model_name`. -/
def get_base_model_name (model : String) : String :=
  pySplitHead (pyReplace (pyReplace model "us.anthropic." "") "anthropic." "") "-v"

/-- `PricingCalculator._get_model_variants`. -/
def get_model_variants (model : String) : List String :=
  let variants := [model]
  let variants :=
    if model.startsWith "us.anthropic." then
      variants ++ [pySplitHead (pyReplace model "us.anthropic." "") "-v", "bedrock/" ++ model]
    else variants
  if model.startsWith "anthropic." then
    variants ++ [pySplitHead (pyReplace model "anthropic." "") "-v"]
  else variants

/-- `PricingCalculator.get_fallback_rates`: exact table match, then base
model name, then the Claude Sonnet 4.5 default (with a logged warning). -/
def get_fallback_rates (model : String) : Rates :=
  match List.lookup model FALLBACK_PRICING with
  | some r => r
  | none =>
    match List.lookup (get_base_model_name model) FALLBACK_PRICING with
    | some r => r
    | none => ⟨3.00, 15.00, 3.75, 0.30⟩

/-- One model's entry in the LiteLLM pricing feed: per-token costs.
Absent fields are read as 0 by `_extract_model_rates`. -/
structure FeedEntry where
  input_cost_per_token : Option ℚ := none
  output_cost_per_token : Option ℚ := none
  cache_creation_input_token_cost : Option ℚ := none
  cache_read_input_token_cost : Option ℚ := none
  deriving Repr, DecidableEq

/-- The pricing feed: model id → feed entry (a JSON object). -/
def PricingData := List (String × FeedEntry)

/-- The rate conversion inside `_extract_model_rates`: per-token feed costs
(missing fields treated as 0) are multiplied by exactly 1,000,000. -/
def rates_of_entry (e : FeedEntry) : Rates :=
  { input_rate := e.input_cost_per_token.getD 0 * 1000000
  , output_rate := e.output_cost_per_token.getD 0 * 1000000
  , cache_write_rate := e.cache_creation_input_token_cost.getD 0 * 1000000
  , cache_read_rate := e.cache_read_input_token_cost.getD 0 * 1000000 }

/-- `PricingCalculator._extract_model_rates`: direct lookup, then the
model-id variants, then convert the per-token costs to per-million rates. -/
def extract_model_rates (pricing_data : PricingData) (model : String) : Option Rates :=
  let direct := List.lookup model pricing_data
  let model_info :=
    match direct with
    | some i => some i
    | none => (get_model_variants model).findSome? (fun v => List.lookup v pricing_data)
  model_info.map rates_of_entry

/-- Environment for one `get_rates` call: the cache-validity check, the
cache file's parsed content, the result of a network fetch attempt, and
whether writing the refreshed cache file succeeds. -/
structure PricingEnv where
  cache_valid : Bool
  cached : Option PricingData
  fetched : Option PricingData
  write_ok : Bool

/-- `PricingCalculator.update_price_cache`: fetch, then atomically write
the cache file; returns success and the environment after the write. -/
def update_price_cache (env : PricingEnv) : Bool × PricingEnv :=
  match env.fetched with
  | none => (false, env)
  | some pd => if env.write_ok then (true, { env with cached := some pd }) else (false, env)

/-- `PricingCalculator.get_rates`: tiered resolution — valid cache, fresh
fetch, stale cache, hardcoded fallback.  Total: always returns rates. -/
def get_rates (env : PricingEnv) (model : String) : Rates :=
  match (if env.cache_valid then env.cached.bind (fun pd => extract_model_rates pd model) else none) with
  | some r => r
  | none =>
    let u := update_price_cache env
    match (if u.1 then u.2.cached.bind (fun pd => extract_model_rates pd model) else none) with
    | some r => r
    | none =>
      match u.2.cached.bind (fun pd => extract_model_rates pd model) with
      | some r => r
      | none => get_fallback_rates model

/-! ## CostCalculator -/

/-- The token-count argument of `calculate_cost` / `record_session`: a dict
whose four token fields may be absent (`tokens.get(key, 0)`). -/
structure TokensIn where
  input_tokens : Option ℕ := none
  output_tokens : Option ℕ := none
  cache_creation_tokens : Option ℕ := none
  cache_read_tokens : Option ℕ := none
  deriving Repr, DecidableEq

/-- `PricingCalculator._calculate_token_cost`. -/
def calculate_token_cost (token_count : ℕ) (rate_per_million : ℚ) : ℚ :=
  ((token_count : ℚ) / 1000000) * rate_per_million

/-- The cost breakdown returned by `calculate_cost`. -/
structure CostBreakdown where
  input_cost : ℚ
  output_cost : ℚ
  cache_creation_cost : ℚ
  cache_read_cost : ℚ
  total_cost : ℚ
  deriving Repr, DecidableEq

/-- `PricingCalculator.calculate_cost`, after the `get_rates` call: each
component is `(count / 1_000_000) * rate`; the total is summed at full
precision; all five output fields are rounded to 6 decimal places. -/
def calculate_cost (tokens : TokensIn) (rates : Rates) : CostBreakdown :=
  let input_cost := calculate_token_cost (tokens.input_tokens.getD 0) rates.input_rate
  let output_cost := calculate_token_cost (tokens.output_tokens.getD 0) rates.output_rate
  let cache_creation_cost :=
    calculate_token_cost (tokens.cache_creation_tokens.getD 0) rates.cache_write_rate
  let cache_read_cost := calculate_token_cost (tokens.cache_read_tokens.getD 0) rates.cache_read_rate
  let total_cost := input_cost + output_cost + cache_creation_cost + cache_read_cost
  { input_cost := pyRound input_cost 6
  , output_cost := pyRound output_cost 6
  , cache_creation_cost := pyRound cache_creation_cost 6
  , cache_read_cost := pyRound cache_read_cost 6
  , total_cost := pyRound total_cost 6 }

/-! ## TokenUsageTracker -/

/-- The normalized `tokens` sub-dict of a session record: the four
categories plus the derived `total_tokens`. -/
structure SessionTokens where
  input_tokens : ℕ
  output_tokens : ℕ
  cache_creation_tokens : ℕ
  cache_read_tokens : ℕ
  total_tokens : ℕ
  deriving Repr, DecidableEq

/-- One session record, as built by `TokenUsageTracker.record_session`. -/
structure SessionRecord where
  session_id : String
  timestamp : String
  session_type : String
  model : String
  duration_ms : ℕ
  num_turns : ℕ
  tokens : SessionTokens
  costs : CostBreakdown
  deriving Repr, DecidableEq

/-- The `summary` object maintained by `_update_summary`. -/
structure Summary where
  total_sessions : ℕ
  total_input_tokens : ℕ
  total_output_tokens : ℕ
  total_cache_creation_tokens : ℕ
  total_cache_read_tokens : ℕ
  total_tokens : ℕ
  total_cost_usd : ℚ
  last_updated : String
  deriving Repr, DecidableEq

/-- `self.data`: the persisted ledger document `{sessions, summary}`. -/
structure LedgerData where
  sessions : List SessionRecord
  summary : Summary
  deriving Repr, DecidableEq

/-- The fresh-structure branch of `TokenUsageTracker._load_or_initialize`. -/
def initial_data (now : String) : LedgerData :=
  { sessions := []
  , summary :=
    { total_sessions := 0
    , total_input_tokens := 0
    , total_output_tokens := 0
    , total_cache_creation_tokens := 0
    , total_cache_read_tokens := 0
    , total_tokens := 0
    , total_cost_usd := 0
    , last_updated := now } }

/-- `TokenUsageTracker._update_summary`: recompute the cumulative summary
from scratch over all sessions. -/
def update_summary (data : LedgerData) (now : String) : LedgerData :=
  let sessions := data.sessions
  let total_input := (sessions.map (fun s => s.tokens.input_tokens)).sum
  let total_output := (sessions.map (fun s => s.tokens.output_tokens)).sum
  let total_cache_creation := (sessions.map (fun s => s.tokens.cache_creation_tokens)).sum
  let total_cache_read := (sessions.map (fun s => s.tokens.cache_read_tokens)).sum
  let total_cost := (sessions.map (fun s => s.costs.total_cost)).sum
  { data with summary :=
    { total_sessions := sessions.length
    , total_input_tokens := total_input
    , total_output_tokens := total_output
    , total_cache_creation_tokens := total_cache_creation
    , total_cache_read_tokens := total_cache_read
    , total_tokens := total_input + total_output + total_cache_creation + total_cache_read
    , total_cost_usd := pyRound total_cost 4
    , last_updated := now } }

/-- The caller-supplied arguments of one `record_session` call, together
with the wall-clock timestamp taken during the call. -/
structure SessionInput where
  session_id : String
  session_type : String
  model : String
  duration_ms : ℕ
  num_turns : ℕ
  tokens : TokensIn
  now : String

/-- `TokenUsageTracker.record_session`, up to (but not including) the
`save_to_file` call: compute costs, build the record, append it, recompute
the summary; returns the new in-memory state and the returned record. -/
def record_session (ratesOf : String → Rates) (data : LedgerData) (inp : SessionInput) :
    LedgerData × SessionRecord :=
  let costs := calculate_cost inp.tokens (ratesOf inp.model)
  let total_tokens :=
    inp.tokens.input_tokens.getD 0 + inp.tokens.output_tokens.getD 0
      + inp.tokens.cache_creation_tokens.getD 0 + inp.tokens.cache_read_tokens.getD 0
  let session_record : SessionRecord :=
    { session_id := inp.session_id
    , timestamp := inp.now
    , session_type := inp.session_type
    , model := inp.model
    , duration_ms := inp.duration_ms
    , num_turns := inp.num_turns
    , tokens :=
      { input_tokens := inp.tokens.input_tokens.getD 0
      , output_tokens := inp.tokens.output_tokens.getD 0
      , cache_creation_tokens := inp.tokens.cache_creation_tokens.getD 0
      , cache_read_tokens := inp.tokens.cache_read_tokens.getD 0
      , total_tokens := total_tokens }
    , costs := costs }
  let data := { data with sessions := data.sessions ++ [session_record] }
  let data := update_summary data inp.now
  (data, session_record)

/-- Fold a sequence of `record_session` calls over a tracker state. -/
def run_sessions (ratesOf : String → Rates) (init : LedgerData) (l : List SessionInput) :
    LedgerData :=
  l.foldl (fun d i => (record_session ratesOf d i).1) init

/-! ## File-system model for `save_to_file` (atomic persistence)

`save_to_file` writes the serialized ledger to the sibling temp file
`usage_statistics.tmp` and then renames it over `usage_statistics.json`.
The model keeps one slot per path; a file on disk is either a complete
serialized document or a truncated prefix of one (interrupted write). -/

/-- On-disk content of one file: a complete JSON serialization of a ledger
document, or a truncated prefix of the serialization of `d` (cut after `k`
bytes), which no reader can parse back. -/
inductive FileContent where
  | full (d : LedgerData)
  | truncated (d : LedgerData) (k : ℕ)
  deriving DecidableEq

/-- Is this content a complete, parseable document? -/
def FileContent.isFull : FileContent → Bool
  | .full _ => true
  | .truncated _ _ => false

/-- The two paths `save_to_file` touches. -/
structure FileSystem where
  stats_file : Option FileContent
  temp_file : Option FileContent
  deriving DecidableEq

/-- The primitive file operations performed by `save_to_file`. -/
inductive SaveStep where
  | writeTemp (c : FileContent)
  | renameTempToStats
  deriving DecidableEq

/-- Effect of one primitive step: `writeTemp` replaces the temp file's
content, `renameTempToStats` atomically installs the temp file at the
stats path. Neither a temp write nor anything before the rename modifies
the stats file. -/
def applyStep (fs : FileSystem) : SaveStep → FileSystem
  | .writeTemp c => { fs with temp_file := some c }
  | .renameTempToStats => { stats_file := fs.temp_file, temp_file := none }

/-- Run a sequence of primitive steps. -/
def runSteps (fs : FileSystem) (l : List SaveStep) : FileSystem :=
  l.foldl applyStep fs

/-- The step sequence of an uninterrupted `save_to_file(d)`: write the
whole document to the temp sibling, then rename it over the stats file. -/
def saveSteps (d : LedgerData) : List SaveStep :=
  [.writeTemp (.full d), .renameTempToStats]

/-- Outcome of one `save_to_file` attempt: either the write completes, or
it fails / is interrupted before the rename step, leaving at most a
truncated temp file (the `IOError` is caught and logged). -/
inductive WriteOutcome where
  | completed
  | interrupted (k : ℕ)

/-- `TokenUsageTracker.save_to_file(d)` under a given outcome. -/
def save_to_file (fs : FileSystem) (d : LedgerData) : WriteOutcome → FileSystem
  | .completed => runSteps fs (saveSteps d)
  | .interrupted k => runSteps fs [.writeTemp (.truncated d k)]

/-- `record_session` including its trailing `save_to_file` call, with the
persistence outcome made explicit.  The function is total: a failed save
is caught inside `save_to_file`, so the record is still appended, the
summary recomputed, and the record returned. -/
def record_session_fs (ratesOf : String → Rates) (data : LedgerData) (fs : FileSystem)
    (inp : SessionInput) (oc : WriteOutcome) : LedgerData × SessionRecord × FileSystem :=
  let r := record_session ratesOf data inp
  (r.1, r.2, save_to_file fs r.1 oc)

/-! ## Helper lemmas -/

/-- `roundHalfEven` is within one half of its argument. -/
lemma roundHalfEven_close (q : ℚ) : |((roundHalfEven q : ℤ) : ℚ) - q| ≤ 1/2 := by
  have h0 : ((⌊q⌋ : ℤ) : ℚ) ≤ q := Int.floor_le q
  have h1 : q < (⌊q⌋ : ℚ) + 1 := Int.lt_floor_add_one q
  unfold roundHalfEven
  dsimp only
  split_ifs with ha hb hc <;>
    · push_cast
      rw [abs_le]
      constructor <;> linarith

/-- `pyRound q n` is within half an ulp (of the n-th decimal place) of `q`. -/
lemma pyRound_close (q : ℚ) (n : ℕ) : |pyRound q n - q| ≤ 1 / (2 * 10 ^ n) := by
  have hpow : (0:ℚ) < 10 ^ n := by positivity
  have h := roundHalfEven_close (q * 10 ^ n)
  have hrw : pyRound q n - q = (((roundHalfEven (q * 10 ^ n) : ℤ) : ℚ) - q * 10 ^ n) / 10 ^ n := by
    field_simp [pyRound]
    ring
  rw [hrw, abs_div, abs_of_pos hpow]
  rw [div_le_iff₀ hpow]
  calc |((roundHalfEven (q * 10 ^ n) : ℤ) : ℚ) - q * 10 ^ n| ≤ 1/2 := h
    _ = 1 / (2 * 10 ^ n) * 10 ^ n := by field_simp
    _ ≤ _ := le_refl _

/-- Pointwise sum of four mapped lists. -/
lemma sum_map_add4 (l : List SessionRecord) (f g h k : SessionRecord → ℕ) :
    (l.map fun s => f s + g s + h s + k s).sum
      = (l.map f).sum + (l.map g).sum + (l.map h).sum + (l.map k).sum := by
  induction l with
  | nil => simp
  | cons a t ih => simp [ih]; ring

/-- Every session record in the state has its `total_tokens` equal to the
sum of its four token categories. -/
def TokensConsistent (d : LedgerData) : Prop :=
  ∀ s ∈ d.sessions, s.tokens.total_tokens
    = s.tokens.input_tokens + s.tokens.output_tokens
      + s.tokens.cache_creation_tokens + s.tokens.cache_read_tokens

/-- The summary is the recomputed aggregate of the sessions list. -/
def SummaryForm (d : LedgerData) : Prop :=
  d.summary.total_sessions = d.sessions.length
  ∧ d.summary.total_tokens
      = (d.sessions.map fun s => s.tokens.input_tokens).sum
        + (d.sessions.map fun s => s.tokens.output_tokens).sum
        + (d.sessions.map fun s => s.tokens.cache_creation_tokens).sum
        + (d.sessions.map fun s => s.tokens.cache_read_tokens).sum
  ∧ d.summary.total_cost_usd = pyRound ((d.sessions.map fun s => s.costs.total_cost).sum) 4

lemma summaryForm_initial (now : String) : SummaryForm (initial_data now) := by
  refine ⟨rfl, rfl, ?_⟩
  show (0:ℚ) = pyRound 0 4
  norm_num [pyRound, roundHalfEven]

lemma tokensConsistent_initial (now : String) : TokensConsistent (initial_data now) := by
  intro s hs; simp [initial_data] at hs

lemma summaryForm_update (d : LedgerData) (now : String) :
    SummaryForm (update_summary d now) :=
  ⟨rfl, rfl, rfl⟩

lemma record_session_state (ratesOf : String → Rates) (d : LedgerData) (inp : SessionInput) :
    (record_session ratesOf d inp).1
      = update_summary { d with sessions := d.sessions ++ [(record_session ratesOf d inp).2] }
          inp.now := rfl

lemma record_session_record_tokens (ratesOf : String → Rates) (d : LedgerData)
    (inp : SessionInput) :
    ((record_session ratesOf d inp).2).tokens.total_tokens
      = ((record_session ratesOf d inp).2).tokens.input_tokens
        + ((record_session ratesOf d inp).2).tokens.output_tokens
        + ((record_session ratesOf d inp).2).tokens.cache_creation_tokens
        + ((record_session ratesOf d inp).2).tokens.cache_read_tokens := rfl

lemma tokensConsistent_record (ratesOf : String → Rates) (d : LedgerData) (inp : SessionInput)
    (hd : TokensConsistent d) : TokensConsistent (record_session ratesOf d inp).1 := by
  intro s hs
  rw [record_session_state] at hs
  have hs' : s ∈ d.sessions ++ [(record_session ratesOf d inp).2] := hs
  rcases List.mem_append.mp hs' with h | h
  · exact hd s h
  · rcases List.mem_singleton.mp h with rfl
    exact record_session_record_tokens ratesOf d inp

lemma good_run (ratesOf : String → Rates) (l : List SessionInput) (init : LedgerData)
    (h1 : TokensConsistent init) (h2 : SummaryForm init) :
    TokensConsistent (run_sessions ratesOf init l) ∧ SummaryForm (run_sessions ratesOf init l) := by
  induction l generalizing init with
  | nil => exact ⟨h1, h2⟩
  | cons i t ih =>
      have hstep : run_sessions ratesOf init (i :: t)
          = run_sessions ratesOf (record_session ratesOf init i).1 t := rfl
      rw [hstep]
      exact ih _ (tokensConsistent_record ratesOf init i h1)
        (record_session_state ratesOf init i ▸ summaryForm_update _ _)

lemma run_sessions_length (ratesOf : String → Rates) (l : List SessionInput) (init : LedgerData) :
    (run_sessions ratesOf init l).sessions.length = init.sessions.length + l.length := by
  induction l generalizing init with
  | nil => rfl
  | cons i t ih =>
      have hstep : run_sessions ratesOf init (i :: t)
          = run_sessions ratesOf (record_session ratesOf init i).1 t := rfl
      rw [hstep, ih]
      have : (record_session ratesOf init i).1.sessions.length = init.sessions.length + 1 := by
        rw [record_session_state]
        simp [update_summary]
      rw [this]
      simp [Nat.add_assoc, Nat.add_comm 1]

/-! ## Claim theorems: pricing and cost calculation -/

/-- Claim C1: for every sequence of sessions recorded via
`record_session` starting from a fresh ledger, the resulting summary has
`total_tokens` equal to the sum of each session's `total_tokens`
(equivalently, the sum of the four token categories over all sessions,
exactly), `total_sessions` equal to the number of sessions, and
`total_cost_usd` equal to `round(Σ session costs.total_cost, 4)`. -/
theorem C1_summary_additivity (ratesOf : String → Rates) (now0 : String)
    (l : List SessionInput) :
    (run_sessions ratesOf (initial_data now0) l).summary.total_sessions = l.length
    ∧ (run_sessions ratesOf (initial_data now0) l).summary.total_sessions
        = (run_sessions ratesOf (initial_data now0) l).sessions.length
    ∧ (run_sessions ratesOf (initial_data now0) l).summary.total_tokens
        = ((run_sessions ratesOf (initial_data now0) l).sessions.map
            fun s => s.tokens.total_tokens).sum
    ∧ (run_sessions ratesOf (initial_data now0) l).summary.total_tokens
        = ((run_sessions ratesOf (initial_data now0) l).sessions.map
            fun s => s.tokens.input_tokens + s.tokens.output_tokens
              + s.tokens.cache_creation_tokens + s.tokens.cache_read_tokens).sum
    ∧ (run_sessions ratesOf (initial_data now0) l).summary.total_cost_usd
        = pyRound (((run_sessions ratesOf (initial_data now0) l).sessions.map
            fun s => s.costs.total_cost).sum) 4 := by
  obtain ⟨htok, hlen, hsum, hcost⟩ :
      TokensConsistent (run_sessions ratesOf (initial_data now0) l)
      ∧ SummaryForm (run_sessions ratesOf (initial_data now0) l) := by
    have h := good_run ratesOf l (initial_data now0) (tokensConsistent_initial now0)
      (summaryForm_initial now0)
    exact ⟨h.1, h.2.1, h.2.2.1, h.2.2.2⟩
  have hcat : (run_sessions ratesOf (initial_data now0) l).summary.total_tokens
      = ((run_sessions ratesOf (initial_data now0) l).sessions.map
          fun s => s.tokens.input_tokens + s.tokens.output_tokens
            + s.tokens.cache_creation_tokens + s.tokens.cache_read_tokens).sum := by
    rw [hsum, sum_map_add4]
  refine ⟨?_, hlen, ?_, hcat, hcost⟩
  · rw [hlen, run_sessions_length]
    simp [initial_data]
  · rw [hcat]
    congr 1
    exact List.map_congr_left fun s hs => (htok s hs).symm

/-- Claim C2: `calculate_cost` on Scenario A's token counts and rates
returns exactly the documented component costs and total. -/
theorem C2_scenario_a :
    calculate_cost ⟨some 1000, some 2000, some 500, some 800⟩ ⟨3.00, 15.00, 3.75, 0.30⟩
      = ⟨0.003, 0.03, 0.001875, 0.00024, 0.035115⟩ := by
  norm_num [calculate_cost, calculate_token_cost, pyRound, roundHalfEven]

/-- Claim C4: rate extraction converts per-token feed costs to
per-million-token rates by multiplying by exactly 1,000,000 (missing fields
read as 0); in particular `input_cost_per_token = 0.000003` resolves to an
`input_rate` of exactly 3. -/
theorem C4_rate_conversion :
    (∀ e : FeedEntry,
      (rates_of_entry e).input_rate = e.input_cost_per_token.getD 0 * 1000000
      ∧ (rates_of_entry e).output_rate = e.output_cost_per_token.getD 0 * 1000000
      ∧ (rates_of_entry e).cache_write_rate = e.cache_creation_input_token_cost.getD 0 * 1000000
      ∧ (rates_of_entry e).cache_read_rate = e.cache_read_input_token_cost.getD 0 * 1000000)
    ∧ extract_model_rates [("claude-sonnet-4-5-20250929", { input_cost_per_token := some 0.000003 })]
        "claude-sonnet-4-5-20250929"
        = some (rates_of_entry { input_cost_per_token := some 0.000003 })
    ∧ (rates_of_entry { input_cost_per_token := some (0.000003 : ℚ) }).input_rate = 3 := by
  refine ⟨fun e => ⟨rfl, rfl, rfl, rfl⟩, rfl, ?_⟩
  norm_num [rates_of_entry]

/-- Claim C5 counterexample: for the cost breakdown at cache-creation 1
token and cache-read 2 tokens under Sonnet 4.5 rates, the code's
`total_cost` (0.000004, rounded from the full-precision sum 0.00000435)
differs from `round(sum of the already-rounded components, 6)` (0.000005)
by a full 10⁻⁶ — far beyond floating-point tolerance. -/
theorem C5_counterexample :
    (calculate_cost ⟨none, none, some 1, some 2⟩ ⟨3.00, 15.00, 3.75, 0.30⟩).total_cost
      ≠ pyRound ((calculate_cost ⟨none, none, some 1, some 2⟩ ⟨3.00, 15.00, 3.75, 0.30⟩).input_cost
          + (calculate_cost ⟨none, none, some 1, some 2⟩ ⟨3.00, 15.00, 3.75, 0.30⟩).output_cost
          + (calculate_cost ⟨none, none, some 1, some 2⟩ ⟨3.00, 15.00, 3.75, 0.30⟩).cache_creation_cost
          + (calculate_cost ⟨none, none, some 1, some 2⟩ ⟨3.00, 15.00, 3.75, 0.30⟩).cache_read_cost) 6
    ∧ pyRound ((calculate_cost ⟨none, none, some 1, some 2⟩ ⟨3.00, 15.00, 3.75, 0.30⟩).input_cost
          + (calculate_cost ⟨none, none, some 1, some 2⟩ ⟨3.00, 15.00, 3.75, 0.30⟩).output_cost
          + (calculate_cost ⟨none, none, some 1, some 2⟩ ⟨3.00, 15.00, 3.75, 0.30⟩).cache_creation_cost
          + (calculate_cost ⟨none, none, some 1, some 2⟩ ⟨3.00, 15.00, 3.75, 0.30⟩).cache_read_cost) 6
        - (calculate_cost ⟨none, none, some 1, some 2⟩ ⟨3.00, 15.00, 3.75, 0.30⟩).total_cost
      = 1/1000000 := by
  constructor <;>
    norm_num [calculate_cost, calculate_token_cost, pyRound, roundHalfEven]

/-- Claim C5 (amended): `total_cost` equals `round` of the full-precision
(unrounded) sum of the four component costs, to 6 places; relative to the
already-rounded component fields, `total_cost` can differ from
`round(sum of rounded components, 6)` by up to 3·10⁻⁶. -/
theorem C5_total_of_unrounded_sum (t : TokensIn) (r : Rates) :
    (calculate_cost t r).total_cost
      = pyRound (calculate_token_cost (t.input_tokens.getD 0) r.input_rate
          + calculate_token_cost (t.output_tokens.getD 0) r.output_rate
          + calculate_token_cost (t.cache_creation_tokens.getD 0) r.cache_write_rate
          + calculate_token_cost (t.cache_read_tokens.getD 0) r.cache_read_rate) 6
    ∧ |(calculate_cost t r).total_cost
        - pyRound ((calculate_cost t r).input_cost + (calculate_cost t r).output_cost
            + (calculate_cost t r).cache_creation_cost + (calculate_cost t r).cache_read_cost) 6|
      ≤ 3/1000000 := by
  constructor
  · rfl
  · set A := calculate_token_cost (t.input_tokens.getD 0) r.input_rate with hA
    set B := calculate_token_cost (t.output_tokens.getD 0) r.output_rate with hB
    set C := calculate_token_cost (t.cache_creation_tokens.getD 0) r.cache_write_rate with hC
    set D := calculate_token_cost (t.cache_read_tokens.getD 0) r.cache_read_rate with hD
    have hfields : (calculate_cost t r).input_cost = pyRound A 6
        ∧ (calculate_cost t r).output_cost = pyRound B 6
        ∧ (calculate_cost t r).cache_creation_cost = pyRound C 6
        ∧ (calculate_cost t r).cache_read_cost = pyRound D 6
        ∧ (calculate_cost t r).total_cost = pyRound (A + B + C + D) 6 :=
      ⟨rfl, rfl, rfl, rfl, rfl⟩
    obtain ⟨h1, h2, h3, h4, h5⟩ := hfields
    rw [h1, h2, h3, h4, h5]
    have e : (1:ℚ) / (2 * 10 ^ 6) = 1/2000000 := by norm_num
    have pA := pyRound_close A 6
    have pB := pyRound_close B 6
    have pC := pyRound_close C 6
    have pD := pyRound_close D 6
    have pS := pyRound_close (A + B + C + D) 6
    have pS' := pyRound_close (pyRound A 6 + pyRound B 6 + pyRound C 6 + pyRound D 6) 6
    rw [e] at pA pB pC pD pS pS'
    have tA := abs_le.mp pA
    have tB := abs_le.mp pB
    have tC := abs_le.mp pC
    have tD := abs_le.mp pD
    have tS := abs_le.mp pS
    have tS' := abs_le.mp pS'
    rw [abs_le]
    constructor <;> linarith

/-- Claim C6: the AWS-prefixed, version-suffixed Sonnet 4.5 identifier and
the bare model name resolve to identical rate tuples when both resolve via
the hardcoded fallback tier (no cache, fetch failed), and already at the
level of `get_fallback_rates`. -/
theorem C6_model_normalization (cv cv' wo wo' : Bool) :
    get_rates ⟨cv, none, none, wo⟩ "us.anthropic.claude-sonnet-4-5-20250929-v1:0"
      = get_rates ⟨cv', none, none, wo'⟩ "claude-sonnet-4-5-20250929"
    ∧ get_fallback_rates "us.anthropic.claude-sonnet-4-5-20250929-v1:0"
        = get_fallback_rates "claude-sonnet-4-5-20250929"
    ∧ get_base_model_name "us.anthropic.claude-sonnet-4-5-20250929-v1:0"
        = "claude-sonnet-4-5-20250929" := by
  cases cv <;> cases cv' <;> exact ⟨rfl, rfl, rfl⟩

/-- Claim C7: with no cache on disk and a failed network fetch, `get_rates`
resolves every model identifier through the hardcoded fallback (it is a
total function — never raises), and the unknown identifier
"gpt-unknown-9000", unrecognized even after normalization, gets the Claude
Sonnet 4.5 default rates. -/
theorem C7_unknown_model_fallback (cv wo : Bool) :
    get_rates ⟨cv, none, none, wo⟩ "gpt-unknown-9000" = ⟨3.00, 15.00, 3.75, 0.30⟩
    ∧ List.lookup "gpt-unknown-9000" FALLBACK_PRICING = none
    ∧ List.lookup (get_base_model_name "gpt-unknown-9000") FALLBACK_PRICING = none
    ∧ (∀ m : String, get_rates ⟨cv, none, none, wo⟩ m = get_fallback_rates m) := by
  cases cv <;> exact ⟨rfl, rfl, rfl, fun m => rfl⟩

/-! ## Claim theorems: persistence -/

/-- Claim C3: persisting always writes the full document to the temp
sibling and then renames; any save that fails or is interrupted before the
rename leaves the previously persisted statistics file intact (in fact no
step other than the rename ever touches the stats path, and the rename
installs a whole document); a reader therefore only ever observes the old
content or the new full document, and a subsequent successful
`record_session` leaves the statistics file a valid full document again. -/
theorem C3_crash_safety (fs : FileSystem) (d : LedgerData) (k : ℕ) :
    (save_to_file fs d (.interrupted k)).stats_file = fs.stats_file
    ∧ (save_to_file fs d .completed).stats_file = some (.full d)
    ∧ (∀ oc, (save_to_file fs d oc).stats_file = fs.stats_file
        ∨ (save_to_file fs d oc).stats_file = some (.full d))
    ∧ (∀ steps : List SaveStep, (∀ s ∈ steps, s ≠ .renameTempToStats)
        → (runSteps fs steps).stats_file = fs.stats_file)
    ∧ (∀ (ratesOf : String → Rates) (data : LedgerData) (inp : SessionInput),
        (record_session_fs ratesOf data (save_to_file fs d (.interrupted k)) inp .completed).2.2.stats_file
          = some (.full (record_session_fs ratesOf data (save_to_file fs d (.interrupted k))
              inp .completed).1)) := by
  refine ⟨rfl, rfl, ?_, ?_, fun _ _ _ => rfl⟩
  · intro oc
    cases oc with
    | completed => exact Or.inr rfl
    | interrupted k' => exact Or.inl rfl
  · intro steps h
    induction steps generalizing fs with
    | nil => rfl
    | cons s rest ih =>
        cases s with
        | writeTemp c =>
            have : runSteps fs (SaveStep.writeTemp c :: rest)
                = runSteps { fs with temp_file := some c } rest := rfl
            rw [this, ih _ fun x hx => h x (List.mem_cons_of_mem _ hx)]
        | renameTempToStats =>
            exact absurd rfl (h _ (List.mem_cons_self _ _))

/-- Claim C10 (implicit): a failed persistence attempt is never propagated
to `record_session`'s caller — for every write outcome the session is
appended to the in-memory ledger, the summary is recomputed from the new
sessions list, and the new record is returned; when the write is
interrupted the statistics file is simply left as it was. -/
theorem C10_save_failure_swallowed (ratesOf : String → Rates) (data : LedgerData)
    (fs : FileSystem) (inp : SessionInput) (oc : WriteOutcome) :
    (record_session_fs ratesOf data fs inp oc).1.sessions
        = data.sessions ++ [(record_session_fs ratesOf data fs inp oc).2.1]
    ∧ (record_session_fs ratesOf data fs inp oc).2.1 = (record_session ratesOf data inp).2
    ∧ (record_session_fs ratesOf data fs inp oc).1
        = update_summary
            { data with sessions := data.sessions ++ [(record_session ratesOf data inp).2] }
            inp.now
    ∧ (∀ k, (record_session_fs ratesOf data fs inp (.interrupted k)).2.2.stats_file
        = fs.stats_file) :=
  ⟨rfl, rfl, rfl, fun _ => rfl⟩

/-! ## The HTML cost patcher (`update_html_report_cost_statistics`)

The patcher applies, in order: four case-sensitive literal mustache
substitutions, then four case-insensitive label-anchored substitutions
with patterns of the form
`(<div class="cost-value">)VAL(</div>\s*<div class="cost-label">LABEL</div>)`,
replaced by `\g<1>{value}\g<2>`.  Each regex is deterministic on its
possible inputs (every quantified character class is disjoint from the
character that must follow it), so the backtracking engine is modelled by
maximal-munch matchers whose only alternations are the explicit candidate
lists below. -/

/-- The left-brace character, as used by the mustache placeholders. -/
def lbrace : Char := Char.ofNat 123

/-- Case-insensitive character comparison (Python `re.IGNORECASE`). -/
def ciEq (a b : Char) : Bool := a.toLower == b.toLower

/-- Case-insensitive list equality. -/
def ciListEq : List Char → List Char → Bool
  | [], [] => true
  | a :: as_, b :: bs => ciEq a b && ciListEq as_ bs
  | _, _ => false

/-- Match a literal (case-insensitively), returning the text as matched
and the remainder. -/
def matchLit : List Char → List Char → Option (List Char × List Char)
  | [], s => some ([], s)
  | _ :: _, [] => none
  | p :: ps, c :: cs =>
    if ciEq p c then
      match matchLit ps cs with
      | some (m, r) => some (c :: m, r)
      | none => none
    else none

/-- Python's `\s` character class (ASCII). -/
def pyIsSpace (c : Char) : Bool :=
  c == ' ' || c == '\t' || c == '\n' || c == '\r' || c == Char.ofNat 11 || c == Char.ofNat 12

/-- Character class `[\d.,]`. -/
def isDigitDotComma (c : Char) : Bool := c.isDigit || c == '.' || c == ','

/-- Character class `[\d,]`. -/
def isDigitComma (c : Char) : Bool := c.isDigit || c == ','

/-- Character class `[\d.]`. -/
def isDigitDot (c : Char) : Bool := c.isDigit || c == '.'

/-- A value-pattern matcher: candidate (matched text, remainder) splits in
the order the regex engine would try them. -/
def ValMatcher := List Char → List (List Char × List Char)

/-- Greedy `~?` . -/
def stripTilde : List Char → List Char × List Char
  | '~' :: r => (['~'], r)
  | s => ([], s)

/-- Value pattern of the Total Cost slot: `\$[\d.,]+`. -/
def matchCostVal : ValMatcher := fun s =>
  match s with
  | '$' :: rest =>
    let d := rest.takeWhile isDigitDotComma
    if d.isEmpty then [] else [('$' :: d, rest.dropWhile isDigitDotComma)]
  | _ => []

/-- Value pattern of the Total Tokens slot: `(?:~?[\d,]+K?|N/A)`. -/
def matchTokensVal : ValMatcher := fun s =>
  let p := stripTilde s
  let d := p.2.takeWhile isDigitComma
  let s2 := p.2.dropWhile isDigitComma
  let branch1 :=
    if d.isEmpty then []
    else
      match s2 with
      | c :: r => if ciEq 'K' c then [(p.1 ++ d ++ [c], r), (p.1 ++ d, s2)] else [(p.1 ++ d, s2)]
      | [] => [(p.1 ++ d, [])]
  let branch2 :=
    match matchLit "N/A".data s with
    | some (m, r) => [(m, r)]
    | none => []
  branch1 ++ branch2

/-- Value pattern of the Duration slot: `(?:~?[\d.]+(?:min|s)|N/A)`. -/
def matchDurationVal : ValMatcher := fun s =>
  let p := stripTilde s
  let d := p.2.takeWhile isDigitDot
  let s2 := p.2.dropWhile isDigitDot
  let branch1 :=
    if d.isEmpty then []
    else
      (match matchLit "min".data s2 with
       | some (m, r) => [(p.1 ++ d ++ m, r)]
       | none => []) ++
      (match matchLit "s".data s2 with
       | some (m, r) => [(p.1 ++ d ++ m, r)]
       | none => [])
  branch1 ++
    (match matchLit "N/A".data s with
     | some (m, r) => [(m, r)]
     | none => [])

/-- Value pattern of the Sessions slot: `\d+`. -/
def matchSessionsVal : ValMatcher := fun s =>
  let d := s.takeWhile Char.isDigit
  if d.isEmpty then [] else [(d, s.dropWhile Char.isDigit)]

/-- The literal `<div class="cost-value">` (group 1 of each pattern). -/
def cvLit : List Char := "<div class=\"cost-value\">".data

/-- The literal `</div>`. -/
def divEnd : List Char := "</div>".data

/-- The literal `<div class="cost-label">`. -/
def clLit : List Char := "<div class=\"cost-label\">".data

/-- A successful slot-pattern match: the two captured groups (as matched),
the matched value text, and the remainder of the input. -/
structure SlotMatch where
  g1 : List Char
  val : List Char
  g2 : List Char
  rest : List Char
  deriving DecidableEq

/-- Try one label-anchored slot pattern at the head of `s`. -/
def matchSlotCands (valm : ValMatcher) (label : List Char) (s : List Char) : Option SlotMatch :=
  match matchLit cvLit s with
  | none => none
  | some (g1m, s1) =>
    (valm s1).findSome? fun vc =>
      match matchLit divEnd vc.2 with
      | none => none
      | some (d1, s3) =>
        let w := s3.takeWhile pyIsSpace
        let s4 := s3.dropWhile pyIsSpace
        match matchLit clLit s4 with
        | none => none
        | some (d2, s5) =>
          match matchLit label s5 with
          | none => none
          | some (lab, s6) =>
            match matchLit divEnd s6 with
            | none => none
            | some (d3, s7) => some ⟨g1m, vc.1, d1 ++ w ++ d2 ++ lab ++ d3, s7⟩

/-- `re.sub` for one slot pattern: scan left to right, replace each
non-overlapping match by `\g<1>{newval}\g<2>`, and report whether any
match occurred.  (The `else` fallback of the length guard is unreachable:
a match always consumes at least the 24 characters of group 1.) -/
def subSlot (valm : ValMatcher) (label newval : List Char) : List Char → List Char × Bool
  | [] => ([], false)
  | c :: cs =>
    match matchSlotCands valm label (c :: cs) with
    | some m =>
      if h : m.rest.length < cs.length + 1 then
        let r := subSlot valm label newval m.rest
        (m.g1 ++ newval ++ m.g2 ++ r.1, true)
      else (m.g1 ++ newval ++ m.g2 ++ m.rest, true)
    | none =>
      let r := subSlot valm label newval cs
      (c :: r.1, r.2)
  termination_by s => s.length
  decreasing_by
    · exact h
    · simp only [List.length_cons]; exact Nat.lt_succ_self _

/-- One mustache pass: `if re.search(lit, html): html = re.sub(lit, v, html)`
for a literal, case-sensitive pattern. -/
def mustachePass (pat newval s : List Char) : List Char × Bool :=
  if occursSeq pat s then (replaceList pat newval s, true) else (s, false)

/-- The four formatted replacement values. -/
structure HtmlValues where
  cost_str : List Char
  tokens_str : List Char
  duration_str : List Char
  sessions_str : List Char

/-- The full replacement pipeline of `update_html_report_cost_statistics`
on the HTML text: four mustache substitutions, then the four
label-anchored default-value substitutions, with the `updated` flag. -/
def patchHtmlContent (v : HtmlValues) (s : List Char) : List Char × Bool :=
  let p1 := mustachePass "\x7b\x7bTOTAL_COST\x7d\x7d".data v.cost_str s
  let p2 := mustachePass "\x7b\x7bTOTAL_TOKENS\x7d\x7d".data v.tokens_str p1.1
  let p3 := mustachePass "\x7b\x7bDURATION\x7d\x7d".data v.duration_str p2.1
  let p4 := mustachePass "\x7b\x7bSESSIONS\x7d\x7d".data v.sessions_str p3.1
  let q1 := subSlot matchCostVal "Total Cost".data v.cost_str p4.1
  let q2 := subSlot matchTokensVal "Total Tokens".data v.tokens_str q1.1
  let q3 := subSlot matchDurationVal "Duration".data v.duration_str q2.1
  let q4 := subSlot matchSessionsVal "Sessions".data v.sessions_str q3.1
  (q4.1, p1.2 || p2.2 || p3.2 || p4.2 || q1.2 || q2.2 || q3.2 || q4.2)

/-! ## Value formatting (`f-string` formats used by the patcher) -/

/-- Decimal digits of a natural number (Python `str(n)`). -/
def natDigits (n : ℕ) : List Char := Nat.toDigits 10 n

/-- Left-pad with zeros to width `n`. -/
def padZeros (s : List Char) (n : ℕ) : List Char :=
  List.replicate (n - s.length) '0' ++ s

/-- Python `f"{q:.nf}"` for `n ≥ 1` on exact rationals. -/
def formatFixed (q : ℚ) (n : ℕ) : List Char :=
  let m := roundHalfEven (q * 10 ^ n)
  let sign := if m < 0 then ['-'] else []
  let a := m.natAbs
  sign ++ natDigits (a / 10 ^ n) ++ '.' :: padZeros (natDigits (a % 10 ^ n)) n

/-- Python `f"{q:.0f}"` on exact rationals. -/
def formatFixed0 (q : ℚ) : List Char :=
  let m := roundHalfEven q
  (if m < 0 then ['-'] else []) ++ natDigits m.natAbs

/-- Comma-group the (reversed) digit list in threes. -/
def group3 : List Char → List Char
  | d1 :: d2 :: d3 :: d4 :: rest => d1 :: d2 :: d3 :: ',' :: group3 (d4 :: rest)
  | s => s

/-- Python `f"{n:,}"`. -/
def commaGroup (n : ℕ) : List Char := (group3 (natDigits n).reverse).reverse

/-- The four formatted values computed from the loaded statistics:
`cost_str`, `tokens_str`, `duration_str`, `sessions_str`. -/
def formatValues (d : LedgerData) : HtmlValues :=
  let total_duration_ms : ℕ := (d.sessions.map fun s => s.duration_ms).sum
  let total_duration_min : ℚ := (total_duration_ms : ℚ) / 1000 / 60
  { cost_str := '$' :: formatFixed d.summary.total_cost_usd 4
  , tokens_str := commaGroup d.summary.total_tokens
  , duration_str :=
      if 1 ≤ total_duration_min then '~' :: (formatFixed0 total_duration_min ++ "min".data)
      else '~' :: (formatFixed0 ((total_duration_ms : ℚ) / 1000) ++ ['s'])
  , sessions_str := natDigits d.summary.total_sessions }

/-- The file-system facts `update_html_report_cost_statistics` consults:
the statistics file (absent / present-but-malformed / parsed), the
`test-reports` directory, its subdirectories (mtime-sorted, latest last),
and the `Test_Report_Viewer.html` content in the latest subdirectory. -/
structure HtmlEnv where
  stats : Option (Option LedgerData)
  reports_dir_exists : Bool
  report_dirs : List String
  html : Option String
  deriving DecidableEq

/-- `update_html_report_cost_statistics`: guard chain returning `false`
(without raising) on any absence, then patch the HTML content and write it
back only if some pattern matched. -/
def update_html_report_cost_statistics (env : HtmlEnv) : Bool × HtmlEnv :=
  match env.stats with
  | none => (false, env)
  | some none => (false, env)
  | some (some stats_data) =>
    if env.reports_dir_exists = false then (false, env)
    else if env.report_dirs.isEmpty then (false, env)
    else
      match env.html with
      | none => (false, env)
      | some html_content =>
        let vals := formatValues stats_data
        let p := patchHtmlContent vals html_content.data
        if p.2 = false then (false, env)
        else (true, { env with html := some (String.mk p.1) })

/-- Claim C9: `update_html_report_cost_statistics` returns `false` without
raising (it is a total function) whenever the statistics file is absent or
malformed, the reports directory or report subdirectories are absent, the
HTML report is absent, or no placeholder/default pattern matched — and in
every such case the HTML file is left untouched (the whole environment is
unchanged). -/
theorem C9_update_html_guards (env : HtmlEnv) :
    ((update_html_report_cost_statistics env).1 = false →
        (update_html_report_cost_statistics env).2 = env)
    ∧ (env.stats = none → update_html_report_cost_statistics env = (false, env))
    ∧ (env.stats = some none → update_html_report_cost_statistics env = (false, env))
    ∧ (env.reports_dir_exists = false → update_html_report_cost_statistics env = (false, env))
    ∧ (env.report_dirs = [] → update_html_report_cost_statistics env = (false, env))
    ∧ (env.html = none → update_html_report_cost_statistics env = (false, env))
    ∧ (∀ sd c, env.stats = some (some sd) → env.html = some c →
        (patchHtmlContent (formatValues sd) c.data).2 = false →
        update_html_report_cost_statistics env = (false, env)) := by
  rcases env with ⟨st, rd, dirs, html⟩
  rcases st with _ | (_ | sd)
  · exact ⟨fun _ => rfl, fun _ => rfl, fun _ => rfl, fun _ => rfl, fun _ => rfl,
      fun _ => rfl, fun _ _ _ _ _ => rfl⟩
  · exact ⟨fun _ => rfl, fun _ => rfl, fun _ => rfl, fun _ => rfl, fun _ => rfl,
      fun _ => rfl, fun _ _ _ _ _ => rfl⟩
  · cases rd with
    | false =>
        exact ⟨fun _ => rfl, fun _ => rfl, fun _ => rfl, fun _ => rfl, fun _ => rfl,
          fun _ => rfl, fun _ _ _ _ _ => rfl⟩
    | true =>
        cases dirs with
        | nil =>
            exact ⟨fun _ => rfl, fun _ => rfl, fun _ => rfl, fun _ => rfl, fun _ => rfl,
              fun _ => rfl, fun _ _ _ _ _ => rfl⟩
        | cons d ds =>
            rcases html with _ | c
            · exact ⟨fun _ => rfl, fun _ => rfl, fun _ => rfl, fun _ => rfl, fun _ => rfl,
                fun _ => rfl, fun _ _ _ _ _ => rfl⟩
            · by_cases hp : (patchHtmlContent (formatValues sd) c.data).2 = false
              · have hres : update_html_report_cost_statistics
                    ⟨some (some sd), true, d :: ds, some c⟩
                      = (false, ⟨some (some sd), true, d :: ds, some c⟩) := by
                  simp [update_html_report_cost_statistics, hp]
                exact ⟨fun _ => by rw [hres], fun _ => hres, fun _ => hres, fun _ => hres,
                  fun _ => hres, fun _ => hres, fun _ _ _ _ _ => hres⟩
              · have hres : update_html_report_cost_statistics
                    ⟨some (some sd), true, d :: ds, some c⟩
                      = (true, ⟨some (some sd), true, d :: ds,
                          some (String.mk (patchHtmlContent (formatValues sd) c.data).1)⟩) := by
                  simp [update_html_report_cost_statistics, hp]
                refine ⟨fun h => ?_, fun h => ?_, fun h => ?_, fun h => ?_, fun h => ?_,
                  fun h => ?_, fun sd' c' hsd hc hp' => ?_⟩
                · rw [hres] at h; cases h
                · cases h
                · cases h
                · cases h
                · cases h
                · cases h
                · cases hsd; cases hc; exact absurd hp' hp

/-! ## Lemmas about the patch matchers -/

lemma ciEq_refl (c : Char) : ciEq c c = true := by simp [ciEq]

lemma ciListEq_refl (l : List Char) : ciListEq l l = true := by
  induction l with
  | nil => rfl
  | cons c t ih => simp [ciListEq, ciEq_refl, ih]

/-- Matching a literal against ci-equal text consumes exactly that text. -/
lemma matchLit_ci (p : List Char) : ∀ u r, ciListEq p u = true →
    matchLit p (u ++ r) = some (u, r) := by
  induction p with
  | nil =>
      intro u r h
      cases u with
      | nil => rfl
      | cons c t => simp [ciListEq] at h
  | cons pc ps ih =>
      intro u r h
      cases u with
      | nil => simp [ciListEq] at h
      | cons c t =>
          simp only [ciListEq, Bool.and_eq_true] at h
          simp [matchLit, h.1, ih t r h.2]

lemma matchLit_self (p r : List Char) : matchLit p (p ++ r) = some (p, r) :=
  matchLit_ci p p r (ciListEq_refl p)

lemma matchLit_head_ne (pc : Char) (ps : List Char) (c : Char) (cs : List Char)
    (h : ciEq pc c = false) : matchLit (pc :: ps) (c :: cs) = none := by
  simp [matchLit, h]

lemma takeWhile_append_stop (p : Char → Bool) (x : Char) (r : List Char) (hx : p x = false) :
    ∀ l, List.takeWhile p (l ++ x :: r) = List.takeWhile p l := by
  intro l
  induction l with
  | nil => simp [List.takeWhile, hx]
  | cons c t ih =>
      cases hc : p c with
      | true => simp [List.takeWhile, hc, ih]
      | false => simp [List.takeWhile, hc]

lemma dropWhile_append_stop (p : Char → Bool) (x : Char) (r : List Char) (hx : p x = false) :
    ∀ l, List.dropWhile p (l ++ x :: r) = List.dropWhile p l ++ x :: r := by
  intro l
  induction l with
  | nil => simp [List.dropWhile, hx]
  | cons c t ih =>
      cases hc : p c with
      | true => simp [List.dropWhile, hc, ih]
      | false => simp [List.dropWhile, hc]

lemma takeWhile_append_all (p : Char → Bool) (l : List Char) (x : Char) (r : List Char)
    (hl : l.all p = true) (hx : p x = false) : List.takeWhile p (l ++ x :: r) = l := by
  rw [takeWhile_append_stop p x r hx]
  exact List.takeWhile_eq_self_iff.mpr (by intro a ha; exact (List.all_eq_true.mp hl) a ha)

lemma dropWhile_append_all (p : Char → Bool) (l : List Char) (x : Char) (r : List Char)
    (hl : l.all p = true) (hx : p x = false) : List.dropWhile p (l ++ x :: r) = x :: r := by
  rw [dropWhile_append_stop p x r hx]
  rw [List.dropWhile_eq_nil_iff.mpr (by intro a ha; exact (List.all_eq_true.mp hl) a ha)]
  rfl

/-- A literal none of whose characters ci-matches '<' cannot match past a
'<' boundary: the matched text is a prefix of `u`. -/
lemma matchLit_prefix (pat : List Char) (hpat : pat.all (fun pc => !(ciEq pc '<')) = true) :
    ∀ (u z m r' : List Char), matchLit pat (u ++ '<' :: z) = some (m, r') →
      ∃ u', u = m ++ u' ∧ r' = u' ++ '<' :: z := by
  induction pat with
  | nil =>
      intro u z m r' h
      simp only [matchLit, Option.some.injEq, Prod.mk.injEq] at h
      exact ⟨u, by simp [h.1.symm], by simp [h.2.symm]⟩
  | cons pc ps ih =>
      intro u z m r' h
      simp only [List.all_cons, Bool.and_eq_true, Bool.not_eq_true'] at hpat
      cases u with
      | nil =>
          rw [List.nil_append, matchLit_head_ne pc ps '<' z hpat.1] at h
          cases h
      | cons c t =>
          rcases hc : ciEq pc c with _ | _
          · rw [List.cons_append, matchLit_head_ne pc ps c _ hc] at h
            cases h
          · rw [List.cons_append] at h
            simp only [matchLit, hc, if_true] at h
            cases hm : matchLit ps (t ++ '<' :: z) with
            | none => rw [hm] at h; cases h
            | some pr =>
                rw [hm] at h
                simp only [Option.some.injEq, Prod.mk.injEq] at h
                obtain ⟨u', h1, h2⟩ := ih hpat.2 t z pr.1 pr.2 hm
                exact ⟨u', by rw [← h.1, h1]; simp, by rw [← h.2, h2]⟩

/-! ## Slot value shapes

Decidable descriptions of the value texts the four slot patterns match
exactly; the hypotheses of the idempotence theorem. -/

/-- A character that can sit inside a slot value or a filler without ever
starting or faking a pattern: not ci-equal to '<' and not a left brace. -/
def inertChar (c : Char) : Bool := !(ciEq '<' c) && !(c == lbrace)

/-- Text all of whose characters are inert. -/
def inertText (l : List Char) : Bool := l.all inertChar

/-- Values the Total Cost pattern `\$[\d.,]+` matches exactly. -/
def costShape (u : List Char) : Bool :=
  match u with
  | '$' :: t => !t.isEmpty && t.all isDigitDotComma
  | _ => false

/-- Values the Total Tokens pattern `(?:~?[\d,]+K?|N/A)` matches exactly. -/
def tokensShape (u : List Char) : Bool :=
  (let p := stripTilde u
   let d := p.2.takeWhile isDigitComma
   let r := p.2.dropWhile isDigitComma
   !d.isEmpty && (r == ([] : List Char) || r == ['K'] || r == ['k']))
  || u == "N/A".data || u == "n/a".data

/-- Values the Duration pattern `(?:~?[\d.]+(?:min|s)|N/A)` matches
exactly. -/
def durationShape (u : List Char) : Bool :=
  (let p := stripTilde u
   let d := p.2.takeWhile isDigitDot
   let r := p.2.dropWhile isDigitDot
   !d.isEmpty && (r == "min".data || r == ['s'] || r == ['S']))
  || u == "N/A".data || u == "n/a".data

/-- Values the Sessions pattern `\d+` matches exactly. -/
def sessionsShape (u : List Char) : Bool :=
  !u.isEmpty && u.all Char.isDigit

lemma stripTilde_cons_ne (c : Char) (t : List Char) (h : c ≠ '~') :
    stripTilde (c :: t) = ([], c :: t) := by
  unfold stripTilde
  split
  · rename_i heq
    cases heq
    exact absurd rfl h
  · rfl

lemma matchCostVal_cons_ne (c : Char) (s : List Char) (h : c ≠ '$') :
    matchCostVal (c :: s) = [] := by
  unfold matchCostVal
  split
  · rename_i heq
    cases heq
    exact absurd rfl h
  · rfl

lemma all_takeWhile (p : Char → Bool) (l : List Char) :
    (l.takeWhile p).all p = true :=
  List.all_eq_true.mpr fun _ ha => List.mem_takeWhile_imp ha

/-- On a cost-shaped value followed by a '<' boundary, the cost value
pattern produces exactly the whole value as its (single) candidate. -/
lemma matchCostVal_exact (u z : List Char) (h : costShape u = true) :
    matchCostVal (u ++ '<' :: z) = [(u, '<' :: z)] := by
  unfold costShape at h
  split at h
  · rename_i t
    simp only [Bool.and_eq_true, Bool.not_eq_true'] at h
    rw [List.cons_append]
    simp only [matchCostVal]
    rw [takeWhile_append_all _ t '<' z h.2 (by decide),
        dropWhile_append_all _ t '<' z h.2 (by decide)]
    simp [h.1]
  · exact Bool.noConfusion h

/-- On a sessions-shaped value followed by a '<' boundary, the sessions
value pattern produces exactly the whole value as its candidate. -/
lemma matchSessionsVal_exact (u z : List Char) (h : sessionsShape u = true) :
    matchSessionsVal (u ++ '<' :: z) = [(u, '<' :: z)] := by
  simp only [sessionsShape, Bool.and_eq_true, Bool.not_eq_true'] at h
  simp only [matchSessionsVal]
  rw [takeWhile_append_all _ u '<' z h.2 (by decide),
      dropWhile_append_all _ u '<' z h.2 (by decide)]
  simp [h.1]

lemma stripTilde_append_parts (u : List Char) : (stripTilde u).1 ++ (stripTilde u).2 = u := by
  unfold stripTilde
  split
  · rfl
  · simp

lemma stripTilde_append_cons (c : Char) (t z' : List Char) :
    stripTilde ((c :: t) ++ z') = ((stripTilde (c :: t)).1, (stripTilde (c :: t)).2 ++ z') := by
  by_cases hc : c = '~'
  · subst hc; rfl
  · rw [List.cons_append, stripTilde_cons_ne c (t ++ z') hc, stripTilde_cons_ne c t hc]
    rfl

/-- On a tokens-shaped value followed by a '<' boundary, the whole value
is the first candidate the tokens value pattern tries. -/
lemma matchTokensVal_exact (u z : List Char) (h : tokensShape u = true) :
    ∃ junk, matchTokensVal (u ++ '<' :: z) = (u, '<' :: z) :: junk := by
  simp only [tokensShape, Bool.or_eq_true] at h
  rcases h with (h | h) | h
  rotate_left
  · cases eq_of_beq h
    exact ⟨[], rfl⟩
  · cases eq_of_beq h
    exact ⟨[], rfl⟩
  · rw [Bool.and_eq_true, Bool.not_eq_true'] at h
    obtain ⟨hd, hr⟩ := h
    cases u with
    | nil => simp [stripTilde] at hd
    | cons c t =>
        simp only [matchTokensVal]
        rw [stripTilde_append_cons c t ('<' :: z)]
        obtain ⟨p1, v, hp⟩ :
            ∃ p1 v, stripTilde (c :: t) = (p1, v) := ⟨_, _, rfl⟩
        rw [hp]
        rw [hp] at hd hr
        simp only at hd hr ⊢
        rw [takeWhile_append_stop isDigitComma '<' z (by decide) v,
            dropWhile_append_stop isDigitComma '<' z (by decide) v]
        have hu : p1 ++ v = c :: t := by
          have := stripTilde_append_parts (c :: t)
          rw [hp] at this
          exact this
        have hall : (v.takeWhile isDigitComma).all isDigitComma = true :=
          all_takeWhile isDigitComma v
        have hv : v.takeWhile isDigitComma ++ v.dropWhile isDigitComma = v :=
          List.takeWhile_append_dropWhile isDigitComma v
        obtain ⟨d, hall, hdne, hveq⟩ :
            ∃ d, d.all isDigitComma = true ∧ d.isEmpty = false
              ∧ v = d ++ v.dropWhile isDigitComma :=
          ⟨v.takeWhile isDigitComma, hall, hd, hv.symm⟩
        rw [Bool.or_eq_true, Bool.or_eq_true] at hr
        rcases hr with (hr | hr) | hr <;> rw [eq_of_beq hr] at hveq <;>
          rw [hveq] at hu ⊢
        · rw [List.append_nil] at hu ⊢
          rw [List.takeWhile_eq_self_iff.mpr (fun a ha => List.all_eq_true.mp hall a ha),
              List.dropWhile_eq_nil_iff.mpr (fun a ha => List.all_eq_true.mp hall a ha)]
          simp only [hdne, Bool.false_eq_true, if_false, List.nil_append]
          rw [show ciEq 'K' '<' = false from by decide]
          simp only [if_false, hu]
          exact ⟨_, rfl⟩
        · rw [takeWhile_append_all _ d 'K' [] hall (by decide),
              dropWhile_append_all _ d 'K' [] hall (by decide)]
          simp only [hdne, Bool.false_eq_true, if_false, List.cons_append, List.nil_append]
          rw [show ciEq 'K' 'K' = true from by decide]
          rw [← List.append_assoc] at hu
          simp only [if_true, hu]
          exact ⟨_, rfl⟩
        · rw [takeWhile_append_all _ d 'k' [] hall (by decide),
              dropWhile_append_all _ d 'k' [] hall (by decide)]
          simp only [hdne, Bool.false_eq_true, if_false, List.cons_append, List.nil_append]
          rw [show ciEq 'K' 'k' = true from by decide]
          rw [← List.append_assoc] at hu
          simp only [if_true, hu]
          exact ⟨_, rfl⟩

/-- On a duration-shaped value followed by a '<' boundary, the whole value
is the first candidate the duration value pattern tries. -/
lemma matchDurationVal_exact (u z : List Char) (h : durationShape u = true) :
    ∃ junk, matchDurationVal (u ++ '<' :: z) = (u, '<' :: z) :: junk := by
  simp only [durationShape, Bool.or_eq_true] at h
  rcases h with (h | h) | h
  rotate_left
  · cases eq_of_beq h
    exact ⟨[], rfl⟩
  · cases eq_of_beq h
    exact ⟨[], rfl⟩
  · rw [Bool.and_eq_true, Bool.not_eq_true'] at h
    obtain ⟨hd, hr⟩ := h
    cases u with
    | nil => simp [stripTilde] at hd
    | cons c t =>
        simp only [matchDurationVal]
        rw [stripTilde_append_cons c t ('<' :: z)]
        obtain ⟨p1, v, hp⟩ :
            ∃ p1 v, stripTilde (c :: t) = (p1, v) := ⟨_, _, rfl⟩
        rw [hp]
        rw [hp] at hd hr
        simp only at hd hr ⊢
        rw [takeWhile_append_stop isDigitDot '<' z (by decide) v,
            dropWhile_append_stop isDigitDot '<' z (by decide) v]
        have hu : p1 ++ v = c :: t := by
          have := stripTilde_append_parts (c :: t)
          rw [hp] at this
          exact this
        have hall : (v.takeWhile isDigitDot).all isDigitDot = true :=
          all_takeWhile isDigitDot v
        have hv : v.takeWhile isDigitDot ++ v.dropWhile isDigitDot = v :=
          List.takeWhile_append_dropWhile isDigitDot v
        obtain ⟨d, hall, hdne, hveq⟩ :
            ∃ d, d.all isDigitDot = true ∧ d.isEmpty = false
              ∧ v = d ++ v.dropWhile isDigitDot :=
          ⟨v.takeWhile isDigitDot, hall, hd, hv.symm⟩
        rw [Bool.or_eq_true, Bool.or_eq_true] at hr
        rcases hr with (hr | hr) | hr <;> rw [eq_of_beq hr] at hveq <;>
          rw [hveq] at hu ⊢
        · rw [takeWhile_append_all _ d 'm' ['i', 'n'] hall (by decide),
              dropWhile_append_all _ d 'm' ['i', 'n'] hall (by decide)]
          have hm : matchLit ['m', 'i', 'n'] (['m', 'i', 'n'] ++ '<' :: z)
              = some (['m', 'i', 'n'], '<' :: z) := matchLit_self _ _
          simp only [List.cons_append, List.nil_append] at hm
          simp only [hdne, Bool.false_eq_true, if_false, List.cons_append, List.nil_append, hm]
          rw [matchLit_head_ne 's' [] 'm' _ (by decide)]
          rw [← List.append_assoc] at hu
          simp only [hu]
          exact ⟨_, rfl⟩
        · rw [takeWhile_append_all _ d 's' [] hall (by decide),
              dropWhile_append_all _ d 's' [] hall (by decide)]
          simp only [hdne, Bool.false_eq_true, if_false, List.cons_append, List.nil_append]
          rw [matchLit_head_ne 'm' ("in".data) 's' _ (by decide)]
          have hs : matchLit ['s'] ('s' :: '<' :: z) = some (['s'], '<' :: z) :=
            matchLit_self ['s'] ('<' :: z)
          rw [← List.append_assoc] at hu
          simp only [hs, hu]
          exact ⟨_, rfl⟩
        · rw [takeWhile_append_all _ d 'S' [] hall (by decide),
              dropWhile_append_all _ d 'S' [] hall (by decide)]
          simp only [hdne, Bool.false_eq_true, if_false, List.cons_append, List.nil_append]
          rw [matchLit_head_ne 'm' ("in".data) 'S' _ (by decide)]
          have hs : matchLit ['s'] ('S' :: '<' :: z) = some (['S'], '<' :: z) :=
            matchLit_ci ['s'] ['S'] ('<' :: z) (by decide)
          rw [← List.append_assoc] at hu
          simp only [hs, hu]
          exact ⟨_, rfl⟩

/-! ### Candidate rests: value matchers never consume past a '<' boundary -/

/-- What remains after any candidate of a value matcher on `u ++ '<' :: z`:
a suffix of `u` followed by the untouched boundary. -/
def RestBoundary (u z r' : List Char) : Prop :=
  ∃ u', u' <:+ u ∧ r' = u' ++ '<' :: z

lemma restBoundary_of_matchLit (pat : List Char)
    (hpat : pat.all (fun pc => !(ciEq pc '<')) = true) (u z m r' : List Char)
    (h : matchLit pat (u ++ '<' :: z) = some (m, r')) : RestBoundary u z r' := by
  obtain ⟨u', h1, h2⟩ := matchLit_prefix pat hpat u z m r' h
  exact ⟨u', ⟨m, h1.symm⟩, h2⟩

lemma restBoundary_dropWhile (p : Char → Bool) (u z : List Char) (hx : p '<' = false) :
    RestBoundary u z (List.dropWhile p (u ++ '<' :: z)) := by
  rw [dropWhile_append_stop p '<' z hx u]
  exact ⟨u.dropWhile p, List.dropWhile_suffix p, rfl⟩

lemma matchCostVal_rest (u z v r' : List Char)
    (h : (v, r') ∈ matchCostVal (u ++ '<' :: z)) : RestBoundary u z r' := by
  cases u with
  | nil =>
      rw [List.nil_append, matchCostVal_cons_ne '<' z (by decide)] at h
      exact absurd h (List.not_mem_nil _)
  | cons c t =>
      by_cases hc : c = '$'
      · subst hc
        rw [List.cons_append] at h
        simp only [matchCostVal] at h
        rw [takeWhile_append_stop isDigitDotComma '<' z (by decide) t,
            dropWhile_append_stop isDigitDotComma '<' z (by decide) t] at h
        by_cases hemp : (t.takeWhile isDigitDotComma).isEmpty = true
        · simp only [hemp, if_true] at h
          exact absurd h (List.not_mem_nil _)
        · rw [Bool.not_eq_true] at hemp
          simp only [hemp, Bool.false_eq_true, if_false, List.mem_singleton,
            Prod.mk.injEq] at h
          refine ⟨t.dropWhile isDigitDotComma, ?_, h.2⟩
          exact (List.dropWhile_suffix _).trans (List.suffix_cons '$' t)
      · rw [List.cons_append, matchCostVal_cons_ne c _ hc] at h
        exact absurd h (List.not_mem_nil _)

lemma matchSessionsVal_rest (u z v r' : List Char)
    (h : (v, r') ∈ matchSessionsVal (u ++ '<' :: z)) : RestBoundary u z r' := by
  simp only [matchSessionsVal] at h
  rw [takeWhile_append_stop Char.isDigit '<' z (by decide) u,
      dropWhile_append_stop Char.isDigit '<' z (by decide) u] at h
  by_cases hemp : (u.takeWhile Char.isDigit).isEmpty = true
  · simp only [hemp, if_true] at h
    exact absurd h (List.not_mem_nil _)
  · rw [Bool.not_eq_true] at hemp
    simp only [hemp, Bool.false_eq_true, if_false, List.mem_singleton, Prod.mk.injEq] at h
    exact ⟨u.dropWhile Char.isDigit, List.dropWhile_suffix _, h.2⟩

lemma restBoundary_mono (a b z r' : List Char) (h : RestBoundary a z r') (hab : a <:+ b) :
    RestBoundary b z r' := by
  obtain ⟨u', h1, h2⟩ := h
  exact ⟨u', h1.trans hab, h2⟩

lemma matchTokensVal_rest (u z v r' : List Char)
    (h : (v, r') ∈ matchTokensVal (u ++ '<' :: z)) : RestBoundary u z r' := by
  cases u with
  | nil =>
      rw [List.nil_append] at h
      rw [show matchTokensVal ('<' :: z) = [] from rfl] at h
      exact absurd h (List.not_mem_nil _)
  | cons c t =>
      simp only [matchTokensVal] at h
      rw [stripTilde_append_cons c t ('<' :: z)] at h
      obtain ⟨p1, w0, hp⟩ : ∃ a b, stripTilde (c :: t) = (a, b) := ⟨_, _, rfl⟩
      rw [hp] at h
      simp only at h
      have hw0 : w0 <:+ c :: t := by
        have h0 := stripTilde_append_parts (c :: t)
        rw [hp] at h0
        exact ⟨p1, h0⟩
      rw [takeWhile_append_stop isDigitComma '<' z (by decide) w0,
          dropWhile_append_stop isDigitComma '<' z (by decide) w0] at h
      rw [List.mem_append] at h
      rcases h with h | h
      · by_cases hemp : (w0.takeWhile isDigitComma).isEmpty = true
        · simp only [hemp, if_true] at h
          exact absurd h (List.not_mem_nil _)
        · rw [Bool.not_eq_true] at hemp
          simp only [hemp, Bool.false_eq_true, if_false] at h
          have hdws : w0.dropWhile isDigitComma <:+ c :: t :=
            (List.dropWhile_suffix _).trans hw0
          cases hdw : w0.dropWhile isDigitComma with
          | nil =>
              rw [hdw] at h
              simp only [List.nil_append] at h
              rw [show ciEq 'K' '<' = false from by decide] at h
              simp only [Bool.false_eq_true, if_false, List.mem_singleton, Prod.mk.injEq] at h
              exact ⟨[], List.nil_suffix, h.2⟩
          | cons c1 t1 =>
              rw [hdw] at h
              rw [hdw] at hdws
              simp only [List.cons_append] at h
              by_cases hk : ciEq 'K' c1 = true
              · simp only [hk, if_true] at h
                rcases List.mem_cons.mp h with h1 | h1
                · exact ⟨t1, (List.suffix_cons c1 t1).trans hdws, congrArg Prod.snd h1⟩
                · rcases List.mem_singleton.mp h1 with h2
                  exact ⟨c1 :: t1, hdws, by
                    have := congrArg Prod.snd h2
                    simpa using this⟩
              · simp only [hk, Bool.false_eq_true, if_false, List.mem_singleton,
                  Prod.mk.injEq] at h
                exact ⟨c1 :: t1, hdws, h.2⟩
      · cases hna : matchLit "N/A".data ((c :: t) ++ '<' :: z) with
        | none => rw [hna] at h; exact absurd h (List.not_mem_nil _)
        | some pr =>
            rw [hna] at h
            have h1 := List.mem_singleton.mp h
            have hb := restBoundary_of_matchLit "N/A".data (by decide) (c :: t) z pr.1 pr.2
              (by rw [hna])
            have h2 : r' = pr.2 := congrArg Prod.snd h1
            exact h2 ▸ hb

lemma matchDurationVal_rest (u z v r' : List Char)
    (h : (v, r') ∈ matchDurationVal (u ++ '<' :: z)) : RestBoundary u z r' := by
  cases u with
  | nil =>
      rw [List.nil_append] at h
      rw [show matchDurationVal ('<' :: z) = [] from rfl] at h
      exact absurd h (List.not_mem_nil _)
  | cons c t =>
      simp only [matchDurationVal] at h
      rw [stripTilde_append_cons c t ('<' :: z)] at h
      obtain ⟨p1, w0, hp⟩ : ∃ a b, stripTilde (c :: t) = (a, b) := ⟨_, _, rfl⟩
      rw [hp] at h
      simp only at h
      have hw0 : w0 <:+ c :: t := by
        have h0 := stripTilde_append_parts (c :: t)
        rw [hp] at h0
        exact ⟨p1, h0⟩
      rw [takeWhile_append_stop isDigitDot '<' z (by decide) w0,
          dropWhile_append_stop isDigitDot '<' z (by decide) w0] at h
      rw [List.mem_append] at h
      have hdws : w0.dropWhile isDigitDot <:+ c :: t :=
        (List.dropWhile_suffix _).trans hw0
      rcases h with h | h
      · by_cases hemp : (w0.takeWhile isDigitDot).isEmpty = true
        · simp only [hemp, if_true] at h
          exact absurd h (List.not_mem_nil _)
        · rw [Bool.not_eq_true] at hemp
          simp only [hemp, Bool.false_eq_true, if_false] at h
          rw [List.mem_append] at h
          rcases h with h | h
          · cases hm : matchLit "min".data (w0.dropWhile isDigitDot ++ '<' :: z) with
            | none => rw [hm] at h; exact absurd h (List.not_mem_nil _)
            | some pr =>
                rw [hm] at h
                have h1 := List.mem_singleton.mp h
                have hb := restBoundary_of_matchLit "min".data (by decide)
                  (w0.dropWhile isDigitDot) z pr.1 pr.2 (by rw [hm])
                have h2 : r' = pr.2 := congrArg Prod.snd h1
                exact h2 ▸ restBoundary_mono _ _ _ _ hb hdws
          · cases hm : matchLit "s".data (w0.dropWhile isDigitDot ++ '<' :: z) with
            | none => rw [hm] at h; exact absurd h (List.not_mem_nil _)
            | some pr =>
                rw [hm] at h
                have h1 := List.mem_singleton.mp h
                have hb := restBoundary_of_matchLit "s".data (by decide)
                  (w0.dropWhile isDigitDot) z pr.1 pr.2 (by rw [hm])
                have h2 : r' = pr.2 := congrArg Prod.snd h1
                exact h2 ▸ restBoundary_mono _ _ _ _ hb hdws
      · cases hna : matchLit "N/A".data ((c :: t) ++ '<' :: z) with
        | none => rw [hna] at h; exact absurd h (List.not_mem_nil _)
        | some pr =>
            rw [hna] at h
            have h1 := List.mem_singleton.mp h
            have hb := restBoundary_of_matchLit "N/A".data (by decide) (c :: t) z pr.1 pr.2
              (by rw [hna])
            have h2 : r' = pr.2 := congrArg Prod.snd h1
            exact h2 ▸ hb

/-! ### Slot-level match lemmas -/

/-- The value/label slot markup the default-value patterns rewrite. -/
def slotDoc (label u w : List Char) : List Char :=
  cvLit ++ u ++ divEnd ++ w ++ clLit ++ label ++ divEnd

lemma divEnd_cons : divEnd = '<' :: "/div>".data := rfl

lemma clLit_cons : clLit = '<' :: "div class=\"cost-label\">".data := rfl

lemma slotDoc_decomp (label u w rs : List Char) :
    slotDoc label u w ++ rs
      = cvLit ++ (u ++ '<' :: ("/div>".data ++ (w ++ (clLit ++ (label ++ (divEnd ++ rs)))))) := by
  simp only [slotDoc, List.append_assoc, divEnd_cons, List.cons_append]

/-- Helper: `matchLit clLit` on text beginning with the literal. -/
lemma matchLit_clLit_self (X : List Char) :
    matchLit ('<' :: "div class=\"cost-label\">".data)
        ('<' :: ("div class=\"cost-label\">".data ++ X))
      = some ('<' :: "div class=\"cost-label\">".data, X) := by
  have h := matchLit_self ('<' :: "div class=\"cost-label\">".data) X
  rw [List.cons_append] at h
  exact h

/-- Helper: `matchLit divEnd` on text beginning with the literal. -/
lemma matchLit_divEnd_self (X : List Char) :
    matchLit divEnd ('<' :: ("/div>".data ++ X)) = some (divEnd, X) := by
  have h := matchLit_self divEnd X
  rw [divEnd_cons, List.cons_append] at h
  rw [divEnd_cons]
  exact h

/-- At a slot whose label matches the pattern's label, the slot pattern
matches the whole slot, capturing its two groups and the value. -/
lemma matchSlotCands_diag (valm : ValMatcher) (label u w rs : List Char)
    (hvd : ∀ z, ∃ junk, valm (u ++ '<' :: z) = (u, '<' :: z) :: junk)
    (hw : w.all pyIsSpace = true) :
    matchSlotCands valm label (slotDoc label u w ++ rs)
      = some ⟨cvLit, u, divEnd ++ w ++ clLit ++ label ++ divEnd, rs⟩ := by
  rw [slotDoc_decomp]
  unfold matchSlotCands
  rw [matchLit_self cvLit _]
  dsimp only
  obtain ⟨junk, hj⟩ := hvd ("/div>".data ++ (w ++ (clLit ++ (label ++ (divEnd ++ rs)))))
  rw [hj, List.findSome?_cons]
  dsimp only
  rw [matchLit_divEnd_self (w ++ (clLit ++ (label ++ (divEnd ++ rs))))]
  dsimp only
  rw [clLit_cons, List.cons_append,
      takeWhile_append_all pyIsSpace w '<' _ hw (by decide),
      dropWhile_append_all pyIsSpace w '<' _ hw (by decide),
      matchLit_clLit_self (label ++ (divEnd ++ rs))]
  dsimp only
  rw [matchLit_self label (divEnd ++ rs)]
  dsimp only
  rw [matchLit_self divEnd rs]

/-- At a slot whose label does not match the pattern's label (or whose
value cannot be matched by the pattern's value class), the slot pattern
does not match. -/
lemma matchSlotCands_offdiag (valm : ValMatcher) (label labIn u w rs : List Char)
    (hrest : ∀ z v r', (v, r') ∈ valm (u ++ '<' :: z) → RestBoundary u z r')
    (hu : inertText u = true) (hw : w.all pyIsSpace = true)
    (hlab : ∀ rs', matchLit label (labIn ++ (divEnd ++ rs')) = none) :
    matchSlotCands valm label (slotDoc labIn u w ++ rs) = none := by
  rw [slotDoc_decomp]
  unfold matchSlotCands
  rw [matchLit_self cvLit _]
  dsimp only
  apply List.findSome?_eq_none_iff.mpr
  intro vc hvc
  obtain ⟨u', hsuf, hrr⟩ :=
    hrest ("/div>".data ++ (w ++ (clLit ++ (labIn ++ (divEnd ++ rs))))) vc.1 vc.2 hvc
  rw [hrr]
  cases u' with
  | nil =>
      rw [List.nil_append]
      rw [matchLit_divEnd_self (w ++ (clLit ++ (labIn ++ (divEnd ++ rs))))]
      dsimp only
      rw [clLit_cons, List.cons_append,
          takeWhile_append_all pyIsSpace w '<' _ hw (by decide),
          dropWhile_append_all pyIsSpace w '<' _ hw (by decide),
          matchLit_clLit_self (labIn ++ (divEnd ++ rs))]
      dsimp only
      rw [hlab rs]
  | cons c1 t1 =>
      have hc1 : inertChar c1 = true :=
        List.all_eq_true.mp hu c1 (hsuf.subset (List.mem_cons_self c1 t1))
      have hlt : ciEq '<' c1 = false := by
        simp only [inertChar, Bool.and_eq_true, Bool.not_eq_true'] at hc1
        exact hc1.1
      rw [List.cons_append, divEnd_cons, matchLit_head_ne '<' _ c1 _ hlt]

/-- No slot pattern matches at a position whose first character is not
(ci-equal to) '<'. -/
lemma matchSlotCands_not_lt (valm : ValMatcher) (label : List Char) (c : Char)
    (cs : List Char) (h : ciEq '<' c = false) :
    matchSlotCands valm label (c :: cs) = none := by
  unfold matchSlotCands
  rw [show cvLit = '<' :: "div class=\"cost-value\">".data from rfl,
      matchLit_head_ne '<' _ c cs h]

/-- No slot pattern matches at the `</div>` inside or after a slot. -/
lemma matchSlotCands_at_divEnd (valm : ValMatcher) (label t : List Char) :
    matchSlotCands valm label ('<' :: '/' :: t) = none := by
  unfold matchSlotCands
  rw [show matchLit cvLit ('<' :: '/' :: t) = none from rfl]

/-- No slot pattern matches at a `<div class="cost-label">` opening. -/
lemma matchSlotCands_at_clLit (valm : ValMatcher) (label X : List Char) :
    matchSlotCands valm label (clLit ++ X) = none := by
  unfold matchSlotCands
  rw [show matchLit cvLit (clLit ++ X) = none from rfl]

/-! ### Scanning lemmas for `subSlot` -/

lemma subSlot_nil (valm : ValMatcher) (label nv : List Char) :
    subSlot valm label nv [] = ([], false) := by
  simp [subSlot]

lemma subSlot_skip (valm : ValMatcher) (label nv : List Char) (c : Char) (cs : List Char)
    (h : matchSlotCands valm label (c :: cs) = none) :
    subSlot valm label nv (c :: cs)
      = (c :: (subSlot valm label nv cs).1, (subSlot valm label nv cs).2) := by
  rw [subSlot]
  rw [h]

lemma subSlot_match (valm : ValMatcher) (label nv : List Char) (c : Char) (cs : List Char)
    (m : SlotMatch) (hm : matchSlotCands valm label (c :: cs) = some m)
    (hlen : m.rest.length < cs.length + 1) :
    subSlot valm label nv (c :: cs)
      = (m.g1 ++ nv ++ m.g2 ++ (subSlot valm label nv m.rest).1, true) := by
  rw [subSlot]
  rw [hm]
  simp [hlen]

/-- Text a `subSlot` pass copies through unchanged, for any continuation. -/
def PassThrough (valm : ValMatcher) (label nv X : List Char) : Prop :=
  ∀ rest, subSlot valm label nv (X ++ rest)
    = (X ++ (subSlot valm label nv rest).1, (subSlot valm label nv rest).2)

lemma passThrough_append (valm : ValMatcher) (label nv X Y : List Char)
    (hx : PassThrough valm label nv X) (hy : PassThrough valm label nv Y) :
    PassThrough valm label nv (X ++ Y) := by
  intro rest
  rw [List.append_assoc, hx, hy]
  simp [List.append_assoc]

/-- Characters that never ci-match '<' are copied through. -/
lemma passThrough_all (valm : ValMatcher) (label nv X : List Char)
    (hf : X.all (fun c => !(ciEq '<' c)) = true) : PassThrough valm label nv X := by
  induction X with
  | nil => intro rest; simp
  | cons c t ih =>
      simp only [List.all_cons, Bool.and_eq_true, Bool.not_eq_true'] at hf
      intro rest
      rw [List.cons_append,
          subSlot_skip valm label nv c (t ++ rest) (matchSlotCands_not_lt valm label c _ hf.1),
          ih (List.all_eq_true.mpr fun a ha => by
            have := hf.2
            rw [List.all_eq_true] at this
            simpa using this a ha) rest]
      simp

/-- Inert text is copied through. -/
lemma passThrough_inert (valm : ValMatcher) (label nv X : List Char)
    (hf : inertText X = true) : PassThrough valm label nv X := by
  apply passThrough_all
  apply List.all_eq_true.mpr
  intro a ha
  have h := List.all_eq_true.mp hf a ha
  simp only [inertChar, Bool.and_eq_true, Bool.not_eq_true'] at h
  simp [h.1]

/-- Whitespace is copied through. -/
lemma passThrough_spaces (valm : ValMatcher) (label nv X : List Char)
    (hf : X.all pyIsSpace = true) : PassThrough valm label nv X := by
  apply passThrough_all
  apply List.all_eq_true.mpr
  intro a ha
  have h := List.all_eq_true.mp hf a ha
  simp only [pyIsSpace, Bool.or_eq_true, beq_iff_eq] at h
  rcases h with ((((h | h) | h) | h) | h) | h <;> subst h <;> decide

/-- A stray `</div>` is copied through. -/
lemma passThrough_divEnd (valm : ValMatcher) (label nv : List Char) :
    PassThrough valm label nv divEnd := by
  intro rest
  rw [divEnd_cons, List.cons_append,
      subSlot_skip valm label nv '<' ("/div>".data ++ rest)
        (show matchSlotCands valm label ('<' :: ("/div>".data ++ rest)) = none from
          matchSlotCands_at_divEnd valm label _),
      (passThrough_all valm label nv "/div>".data (by decide)) rest]
  simp

/-- A label `<div>` with its no-'<' label text is copied through. -/
lemma passThrough_clLit_label (valm : ValMatcher) (label labIn nv : List Char)
    (hlabIn : labIn.all (fun c => !(ciEq '<' c)) = true) :
    PassThrough valm label nv (clLit ++ labIn) := by
  intro rest
  rw [List.append_assoc, clLit_cons, List.cons_append,
      subSlot_skip valm label nv '<'
        ("div class=\"cost-label\">".data ++ (labIn ++ rest))
        (by
          have h := matchSlotCands_at_clLit valm label (labIn ++ rest)
          rw [clLit_cons, List.cons_append] at h
          exact h),
      (passThrough_all valm label nv "div class=\"cost-label\">".data (by decide))
        (labIn ++ rest),
      (passThrough_all valm label nv labIn hlabIn) rest]
  simp [List.append_assoc]

lemma cvLit_cons : cvLit = '<' :: "div class=\"cost-value\">".data := rfl

/-- A slot whose label (or value class) does not fit this pass is copied
through unchanged. -/
lemma passThrough_slotOff (valm : ValMatcher) (label labIn u w nv : List Char)
    (hrest : ∀ z v r', (v, r') ∈ valm (u ++ '<' :: z) → RestBoundary u z r')
    (hu : inertText u = true) (hw : w.all pyIsSpace = true)
    (hlab : ∀ rs', matchLit label (labIn ++ (divEnd ++ rs')) = none)
    (hlabIn : labIn.all (fun c => !(ciEq '<' c)) = true) :
    PassThrough valm label nv (slotDoc labIn u w) := by
  intro rest
  have hnm := matchSlotCands_offdiag valm label labIn u w rest hrest hu hw hlab
  have hdec : slotDoc labIn u w ++ rest
      = '<' :: ("div class=\"cost-value\">".data
          ++ (u ++ (divEnd ++ (w ++ ((clLit ++ labIn) ++ (divEnd ++ rest)))))) := by
    simp [slotDoc, cvLit_cons, List.append_assoc]
  rw [hdec] at hnm
  rw [hdec, subSlot_skip valm label nv '<' _ hnm,
      (passThrough_all valm label nv "div class=\"cost-value\">".data (by decide)) _,
      (passThrough_inert valm label nv u hu) _,
      (passThrough_divEnd valm label nv) _,
      (passThrough_spaces valm label nv w hw) _,
      (passThrough_clLit_label valm label labIn nv hlabIn) _,
      (passThrough_divEnd valm label nv) rest]
  simp [slotDoc, cvLit_cons, List.append_assoc]

/-- A slot whose label fits this pass has its value replaced by the new
value, everything else in the slot preserved, and sets the match flag. -/
lemma subSlot_slotDiag (valm : ValMatcher) (label u w nv : List Char)
    (hvd : ∀ z, ∃ junk, valm (u ++ '<' :: z) = (u, '<' :: z) :: junk)
    (hw : w.all pyIsSpace = true) :
    ∀ rest, subSlot valm label nv (slotDoc label u w ++ rest)
      = (slotDoc label nv w ++ (subSlot valm label nv rest).1, true) := by
  intro rest
  have hm := matchSlotCands_diag valm label u w rest hvd hw
  have hdec : slotDoc label u w ++ rest
      = '<' :: ("div class=\"cost-value\">".data
          ++ (u ++ (divEnd ++ (w ++ ((clLit ++ label) ++ (divEnd ++ rest)))))) := by
    simp [slotDoc, cvLit_cons, List.append_assoc]
  rw [hdec] at hm
  have hL := congrArg List.length hdec
  simp only [slotDoc, List.length_append, List.length_cons] at hL
  have hlen : rest.length
      < ("div class=\"cost-value\">".data
          ++ (u ++ (divEnd ++ (w ++ ((clLit ++ label) ++ (divEnd ++ rest)))))).length + 1 := by
    simp only [List.length_append]
    omega
  rw [hdec, subSlot_match valm label nv '<' _
      ⟨cvLit, u, divEnd ++ w ++ clLit ++ label ++ divEnd, rest⟩ hm hlen]
  dsimp only
  simp [slotDoc, cvLit_cons, List.append_assoc]

lemma unmatched_of_passThrough (valm : ValMatcher) (label nv X : List Char)
    (hX : PassThrough valm label nv X) : subSlot valm label nv X = (X, false) := by
  have h := hX []
  rw [List.append_nil, subSlot_nil] at h
  simpa using h

/-- A mustache literal (which starts with a left brace) does not occur in
brace-free text. -/
lemma occursSeq_false_of_no_lbrace (pat' s : List Char)
    (hs : s.all (fun c => !(c == lbrace)) = true) :
    occursSeq (lbrace :: pat') s = false := by
  induction s with
  | nil => rfl
  | cons c t ih =>
      simp only [List.all_cons, Bool.and_eq_true, Bool.not_eq_true'] at hs
      have hne : (lbrace == c) = false := by
        rcases beq_eq_false_iff_ne.mp hs.1 with h
        exact beq_eq_false_iff_ne.mpr (Ne.symm h)
      simp only [occursSeq, List.isPrefixOf, hne, Bool.false_and, Bool.false_or]
      exact ih (List.all_eq_true.mpr fun a ha => by
        have := hs.2
        rw [List.all_eq_true] at this
        simpa using this a ha)

lemma mustachePass_id (pat' nv s : List Char)
    (hs : s.all (fun c => !(c == lbrace)) = true) :
    mustachePass (lbrace :: pat') nv s = (s, false) := by
  rw [mustachePass, occursSeq_false_of_no_lbrace pat' s hs]
  simp

/-- The shape of a fully populated fixed-slot report document: four
labeled value/label slots separated by arbitrary inert filler. -/
def reportDoc (f0 u1 w1 f1 u2 w2 f2 u3 w3 f3 u4 w4 f4 : List Char) : List Char :=
  f0 ++ (slotDoc "Total Cost".data u1 w1
    ++ (f1 ++ (slotDoc "Total Tokens".data u2 w2
      ++ (f2 ++ (slotDoc "Duration".data u3 w3
        ++ (f3 ++ (slotDoc "Sessions".data u4 w4 ++ f4)))))))

lemma inert_no_lbrace (X : List Char) (h : inertText X = true) :
    X.all (fun c => !(c == lbrace)) = true := by
  apply List.all_eq_true.mpr
  intro a ha
  have h2 := List.all_eq_true.mp h a ha
  simp only [inertChar, Bool.and_eq_true] at h2
  exact h2.2

lemma spaces_no_lbrace (X : List Char) (h : X.all pyIsSpace = true) :
    X.all (fun c => !(c == lbrace)) = true := by
  apply List.all_eq_true.mpr
  intro a ha
  have h2 := List.all_eq_true.mp h a ha
  simp only [pyIsSpace, Bool.or_eq_true, beq_iff_eq] at h2
  rcases h2 with ((((h2 | h2) | h2) | h2) | h2) | h2 <;> subst h2 <;> decide

lemma slotDoc_no_lbrace (label u w : List Char)
    (hlabel : label.all (fun c => !(c == lbrace)) = true)
    (hu : inertText u = true) (hw : w.all pyIsSpace = true) :
    (slotDoc label u w).all (fun c => !(c == lbrace)) = true := by
  simp only [slotDoc, List.all_append, Bool.and_eq_true]
  refine ⟨⟨⟨⟨⟨⟨by decide, inert_no_lbrace u hu⟩, by decide⟩, spaces_no_lbrace w hw⟩,
    by decide⟩, hlabel⟩, by decide⟩

/-- Core of the patcher's behaviour on a fully populated report document:
each pass rewrites exactly its own slot's value, everything else is copied
verbatim, and the `updated` flag is set. -/
lemma patchReport (v : HtmlValues)
    (f0 u1 w1 f1 u2 w2 f2 u3 w3 f3 u4 w4 f4 : List Char)
    (hf0 : inertText f0 = true) (hf1 : inertText f1 = true) (hf2 : inertText f2 = true)
    (hf3 : inertText f3 = true) (hf4 : inertText f4 = true)
    (hw1 : w1.all pyIsSpace = true) (hw2 : w2.all pyIsSpace = true)
    (hw3 : w3.all pyIsSpace = true) (hw4 : w4.all pyIsSpace = true)
    (hu1s : costShape u1 = true) (hu1i : inertText u1 = true)
    (hu2s : tokensShape u2 = true) (hu2i : inertText u2 = true)
    (hu3s : durationShape u3 = true) (hu3i : inertText u3 = true)
    (hu4s : sessionsShape u4 = true) (hu4i : inertText u4 = true)
    (hv1 : inertText v.cost_str = true) (hv2 : inertText v.tokens_str = true)
    (hv3 : inertText v.duration_str = true) (hv4 : inertText v.sessions_str = true) :
    patchHtmlContent v (reportDoc f0 u1 w1 f1 u2 w2 f2 u3 w3 f3 u4 w4 f4)
      = (reportDoc f0 v.cost_str w1 f1 v.tokens_str w2 f2 v.duration_str w3 f3
          v.sessions_str w4 f4, true) := by
  have hnb : (reportDoc f0 u1 w1 f1 u2 w2 f2 u3 w3 f3 u4 w4 f4).all
      (fun c => !(c == lbrace)) = true := by
    simp only [reportDoc, List.all_append, Bool.and_eq_true]
    exact ⟨inert_no_lbrace f0 hf0, slotDoc_no_lbrace _ u1 w1 (by decide) hu1i hw1,
      inert_no_lbrace f1 hf1, slotDoc_no_lbrace _ u2 w2 (by decide) hu2i hw2,
      inert_no_lbrace f2 hf2, slotDoc_no_lbrace _ u3 w3 (by decide) hu3i hw3,
      inert_no_lbrace f3 hf3, slotDoc_no_lbrace _ u4 w4 (by decide) hu4i hw4,
      inert_no_lbrace f4 hf4⟩
  have hq1 : subSlot matchCostVal "Total Cost".data v.cost_str
      (reportDoc f0 u1 w1 f1 u2 w2 f2 u3 w3 f3 u4 w4 f4)
      = (reportDoc f0 v.cost_str w1 f1 u2 w2 f2 u3 w3 f3 u4 w4 f4, true) := by
    have hB := unmatched_of_passThrough matchCostVal "Total Cost".data v.cost_str
      (f1 ++ (slotDoc "Total Tokens".data u2 w2 ++ (f2 ++ (slotDoc "Duration".data u3 w3
        ++ (f3 ++ (slotDoc "Sessions".data u4 w4 ++ f4))))))
      (passThrough_append _ _ _ _ _ (passThrough_inert _ _ _ f1 hf1)
        (passThrough_append _ _ _ _ _
          (passThrough_slotOff matchCostVal "Total Cost".data "Total Tokens".data u2 w2
            v.cost_str (matchCostVal_rest u2) hu2i hw2 (fun rs' => rfl) (by decide))
          (passThrough_append _ _ _ _ _ (passThrough_inert _ _ _ f2 hf2)
            (passThrough_append _ _ _ _ _
              (passThrough_slotOff matchCostVal "Total Cost".data "Duration".data u3 w3
                v.cost_str (matchCostVal_rest u3) hu3i hw3 (fun rs' => rfl) (by decide))
              (passThrough_append _ _ _ _ _ (passThrough_inert _ _ _ f3 hf3)
                (passThrough_append _ _ _ _ _
                  (passThrough_slotOff matchCostVal "Total Cost".data "Sessions".data u4 w4
                    v.cost_str (matchCostVal_rest u4) hu4i hw4 (fun rs' => rfl) (by decide))
                  (passThrough_inert _ _ _ f4 hf4)))))))
    show subSlot matchCostVal "Total Cost".data v.cost_str
        (f0 ++ (slotDoc "Total Cost".data u1 w1 ++ _)) = _
    rw [(passThrough_inert matchCostVal "Total Cost".data v.cost_str f0 hf0) _,
        subSlot_slotDiag matchCostVal "Total Cost".data u1 w1 v.cost_str
          (fun z => ⟨[], matchCostVal_exact u1 z hu1s⟩) hw1 _, hB]
    rfl
  have hq2 : subSlot matchTokensVal "Total Tokens".data v.tokens_str
      (reportDoc f0 v.cost_str w1 f1 u2 w2 f2 u3 w3 f3 u4 w4 f4)
      = (reportDoc f0 v.cost_str w1 f1 v.tokens_str w2 f2 u3 w3 f3 u4 w4 f4, true) := by
    have hB := unmatched_of_passThrough matchTokensVal "Total Tokens".data v.tokens_str
      (f2 ++ (slotDoc "Duration".data u3 w3 ++ (f3 ++ (slotDoc "Sessions".data u4 w4 ++ f4))))
      (passThrough_append _ _ _ _ _ (passThrough_inert _ _ _ f2 hf2)
        (passThrough_append _ _ _ _ _
          (passThrough_slotOff matchTokensVal "Total Tokens".data "Duration".data u3 w3
            v.tokens_str (matchTokensVal_rest u3) hu3i hw3 (fun rs' => rfl) (by decide))
          (passThrough_append _ _ _ _ _ (passThrough_inert _ _ _ f3 hf3)
            (passThrough_append _ _ _ _ _
              (passThrough_slotOff matchTokensVal "Total Tokens".data "Sessions".data u4 w4
                v.tokens_str (matchTokensVal_rest u4) hu4i hw4 (fun rs' => rfl) (by decide))
              (passThrough_inert _ _ _ f4 hf4)))))
    show subSlot matchTokensVal "Total Tokens".data v.tokens_str
        (f0 ++ (slotDoc "Total Cost".data v.cost_str w1
          ++ (f1 ++ (slotDoc "Total Tokens".data u2 w2 ++ _)))) = _
    rw [(passThrough_inert matchTokensVal "Total Tokens".data v.tokens_str f0 hf0) _,
        (passThrough_slotOff matchTokensVal "Total Tokens".data "Total Cost".data
          v.cost_str w1 v.tokens_str
          (matchTokensVal_rest v.cost_str) hv1 hw1 (fun rs' => rfl) (by decide)) _,
        (passThrough_inert matchTokensVal "Total Tokens".data v.tokens_str f1 hf1) _,
        subSlot_slotDiag matchTokensVal "Total Tokens".data u2 w2 v.tokens_str
          (fun z => matchTokensVal_exact u2 z hu2s) hw2 _, hB]
    rfl
  have hq3 : subSlot matchDurationVal "Duration".data v.duration_str
      (reportDoc f0 v.cost_str w1 f1 v.tokens_str w2 f2 u3 w3 f3 u4 w4 f4)
      = (reportDoc f0 v.cost_str w1 f1 v.tokens_str w2 f2 v.duration_str w3 f3
          u4 w4 f4, true) := by
    have hB := unmatched_of_passThrough matchDurationVal "Duration".data v.duration_str
      (f3 ++ (slotDoc "Sessions".data u4 w4 ++ f4))
      (passThrough_append _ _ _ _ _ (passThrough_inert _ _ _ f3 hf3)
        (passThrough_append _ _ _ _ _
          (passThrough_slotOff matchDurationVal "Duration".data "Sessions".data u4 w4
            v.duration_str (matchDurationVal_rest u4) hu4i hw4 (fun rs' => rfl) (by decide))
          (passThrough_inert _ _ _ f4 hf4)))
    show subSlot matchDurationVal "Duration".data v.duration_str
        (f0 ++ (slotDoc "Total Cost".data v.cost_str w1
          ++ (f1 ++ (slotDoc "Total Tokens".data v.tokens_str w2
            ++ (f2 ++ (slotDoc "Duration".data u3 w3 ++ _)))))) = _
    rw [(passThrough_inert matchDurationVal "Duration".data v.duration_str f0 hf0) _,
        (passThrough_slotOff matchDurationVal "Duration".data "Total Cost".data
          v.cost_str w1 v.duration_str
          (matchDurationVal_rest v.cost_str) hv1 hw1 (fun rs' => rfl) (by decide)) _,
        (passThrough_inert matchDurationVal "Duration".data v.duration_str f1 hf1) _,
        (passThrough_slotOff matchDurationVal "Duration".data "Total Tokens".data
          v.tokens_str w2 v.duration_str
          (matchDurationVal_rest v.tokens_str) hv2 hw2 (fun rs' => rfl) (by decide)) _,
        (passThrough_inert matchDurationVal "Duration".data v.duration_str f2 hf2) _,
        subSlot_slotDiag matchDurationVal "Duration".data u3 w3 v.duration_str
          (fun z => matchDurationVal_exact u3 z hu3s) hw3 _, hB]
    rfl
  have hq4 : subSlot matchSessionsVal "Sessions".data v.sessions_str
      (reportDoc f0 v.cost_str w1 f1 v.tokens_str w2 f2 v.duration_str w3 f3 u4 w4 f4)
      = (reportDoc f0 v.cost_str w1 f1 v.tokens_str w2 f2 v.duration_str w3 f3
          v.sessions_str w4 f4, true) := by
    have hB := unmatched_of_passThrough matchSessionsVal "Sessions".data v.sessions_str
      f4 (passThrough_inert _ _ _ f4 hf4)
    show subSlot matchSessionsVal "Sessions".data v.sessions_str
        (f0 ++ (slotDoc "Total Cost".data v.cost_str w1
          ++ (f1 ++ (slotDoc "Total Tokens".data v.tokens_str w2
            ++ (f2 ++ (slotDoc "Duration".data v.duration_str w3
              ++ (f3 ++ (slotDoc "Sessions".data u4 w4 ++ _)))))))) = _
    rw [(passThrough_inert matchSessionsVal "Sessions".data v.sessions_str f0 hf0) _,
        (passThrough_slotOff matchSessionsVal "Sessions".data "Total Cost".data
          v.cost_str w1 v.sessions_str
          (matchSessionsVal_rest v.cost_str) hv1 hw1 (fun rs' => rfl) (by decide)) _,
        (passThrough_inert matchSessionsVal "Sessions".data v.sessions_str f1 hf1) _,
        (passThrough_slotOff matchSessionsVal "Sessions".data "Total Tokens".data
          v.tokens_str w2 v.sessions_str
          (matchSessionsVal_rest v.tokens_str) hv2 hw2 (fun rs' => rfl) (by decide)) _,
        (passThrough_inert matchSessionsVal "Sessions".data v.sessions_str f2 hf2) _,
        (passThrough_slotOff matchSessionsVal "Sessions".data "Duration".data
          v.duration_str w3 v.sessions_str
          (matchSessionsVal_rest v.duration_str) hv3 hw3 (fun rs' => rfl) (by decide)) _,
        (passThrough_inert matchSessionsVal "Sessions".data v.sessions_str f3 hf3) _,
        subSlot_slotDiag matchSessionsVal "Sessions".data u4 w4 v.sessions_str
          (fun z => ⟨[], matchSessionsVal_exact u4 z hu4s⟩) hw4 _, hB]
    rfl
  have hm1 : mustachePass "\x7b\x7bTOTAL_COST\x7d\x7d".data v.cost_str
      (reportDoc f0 u1 w1 f1 u2 w2 f2 u3 w3 f3 u4 w4 f4)
      = (reportDoc f0 u1 w1 f1 u2 w2 f2 u3 w3 f3 u4 w4 f4, false) :=
    mustachePass_id _ _ _ hnb
  have hm2 : mustachePass "\x7b\x7bTOTAL_TOKENS\x7d\x7d".data v.tokens_str
      (reportDoc f0 u1 w1 f1 u2 w2 f2 u3 w3 f3 u4 w4 f4)
      = (reportDoc f0 u1 w1 f1 u2 w2 f2 u3 w3 f3 u4 w4 f4, false) :=
    mustachePass_id _ _ _ hnb
  have hm3 : mustachePass "\x7b\x7bDURATION\x7d\x7d".data v.duration_str
      (reportDoc f0 u1 w1 f1 u2 w2 f2 u3 w3 f3 u4 w4 f4)
      = (reportDoc f0 u1 w1 f1 u2 w2 f2 u3 w3 f3 u4 w4 f4, false) :=
    mustachePass_id _ _ _ hnb
  have hm4 : mustachePass "\x7b\x7bSESSIONS\x7d\x7d".data v.sessions_str
      (reportDoc f0 u1 w1 f1 u2 w2 f2 u3 w3 f3 u4 w4 f4)
      = (reportDoc f0 u1 w1 f1 u2 w2 f2 u3 w3 f3 u4 w4 f4, false) :=
    mustachePass_id _ _ _ hnb
  simp only [patchHtmlContent]
  rw [hm1]
  simp only
  rw [hm2]
  simp only
  rw [hm3]
  simp only
  rw [hm4]
  simp only
  rw [hq1]
  simp only
  rw [hq2]
  simp only
  rw [hq3]
  simp only
  rw [hq4]
  rfl

/-- Claim C8: the HTML cost patcher is idempotent and frame-preserving.
On a report document consisting of the four labeled value/label slots
separated by arbitrary inert filler, one run of the replacement pipeline
changes exactly the four value slots (to the formatted cost, token,
duration and session values) and nothing else; and a second run on the
already-patched document yields a byte-identical document. -/
theorem C8_patcher_idempotent_frame (v : HtmlValues)
    (f0 u1 w1 f1 u2 w2 f2 u3 w3 f3 u4 w4 f4 : List Char)
    (hf0 : inertText f0 = true) (hf1 : inertText f1 = true) (hf2 : inertText f2 = true)
    (hf3 : inertText f3 = true) (hf4 : inertText f4 = true)
    (hw1 : w1.all pyIsSpace = true) (hw2 : w2.all pyIsSpace = true)
    (hw3 : w3.all pyIsSpace = true) (hw4 : w4.all pyIsSpace = true)
    (hu1s : costShape u1 = true) (hu1i : inertText u1 = true)
    (hu2s : tokensShape u2 = true) (hu2i : inertText u2 = true)
    (hu3s : durationShape u3 = true) (hu3i : inertText u3 = true)
    (hu4s : sessionsShape u4 = true) (hu4i : inertText u4 = true)
    (hv1s : costShape v.cost_str = true) (hv1i : inertText v.cost_str = true)
    (hv2s : tokensShape v.tokens_str = true) (hv2i : inertText v.tokens_str = true)
    (hv3s : durationShape v.duration_str = true) (hv3i : inertText v.duration_str = true)
    (hv4s : sessionsShape v.sessions_str = true) (hv4i : inertText v.sessions_str = true) :
    patchHtmlContent v (reportDoc f0 u1 w1 f1 u2 w2 f2 u3 w3 f3 u4 w4 f4)
      = (reportDoc f0 v.cost_str w1 f1 v.tokens_str w2 f2 v.duration_str w3 f3
          v.sessions_str w4 f4, true)
    ∧ patchHtmlContent v
        (patchHtmlContent v (reportDoc f0 u1 w1 f1 u2 w2 f2 u3 w3 f3 u4 w4 f4)).1
      = ((patchHtmlContent v (reportDoc f0 u1 w1 f1 u2 w2 f2 u3 w3 f3 u4 w4 f4)).1,
          true) := by
  have h1 := patchReport v f0 u1 w1 f1 u2 w2 f2 u3 w3 f3 u4 w4 f4 hf0 hf1 hf2 hf3 hf4
    hw1 hw2 hw3 hw4 hu1s hu1i hu2s hu2i hu3s hu3i hu4s hu4i hv1i hv2i hv3i hv4i
  have h2 := patchReport v f0 v.cost_str w1 f1 v.tokens_str w2 f2 v.duration_str w3 f3
    v.sessions_str w4 f4 hf0 hf1 hf2 hf3 hf4 hw1 hw2 hw3 hw4
    hv1s hv1i hv2s hv2i hv3s hv3i hv4s hv4i hv1i hv2i hv3i hv4i
  refine ⟨h1, ?_⟩
  rw [h1]
  exact h2

/-- Concrete formatted values for the patcher witness. -/
def wVals : HtmlValues :=
  ⟨"$0.1234".data, "1,234,567".data, "~5min".data, "3".data⟩

/-- A concrete pre-patch report document. -/
def wDocU : List Char :=
  reportDoc "report head ".data "$0.00".data " ".data " mid1 ".data "~12,345K".data
    "\n  ".data " mid2 ".data "N/A".data "".data " mid3 ".data "7".data " ".data
    " tail".data

/-- The same document with the four slot values replaced. -/
def wDocV : List Char :=
  reportDoc "report head ".data "$0.1234".data " ".data " mid1 ".data "1,234,567".data
    "\n  ".data " mid2 ".data "~5min".data "".data " mid3 ".data "3".data " ".data
    " tail".data

/-- Witness for C8 at a concrete document and value set. -/
theorem C8_patcher_idempotent_frame_witness :
    patchHtmlContent wVals wDocU = (wDocV, true)
    ∧ patchHtmlContent wVals (patchHtmlContent wVals wDocU).1
        = ((patchHtmlContent wVals wDocU).1, true) :=
  C8_patcher_idempotent_frame wVals "report head ".data "$0.00".data " ".data
    " mid1 ".data "~12,345K".data "\n  ".data " mid2 ".data "N/A".data "".data
    " mid3 ".data "7".data " ".data " tail".data
    (by decide) (by decide) (by decide) (by decide) (by decide)
    (by decide) (by decide) (by decide) (by decide)
    (by decide) (by decide) (by decide) (by decide)
    (by decide) (by decide) (by decide) (by decide)
    (by decide) (by decide) (by decide) (by decide)
    (by decide) (by decide) (by decide) (by decide)

/-- Witness for C9: on a project environment with no statistics file the
updater returns false and leaves everything unchanged. -/
theorem C9_update_html_guards_witness :
    update_html_report_cost_statistics ⟨none, true, ["r1"], none⟩
      = (false, ⟨none, true, ["r1"], none⟩) :=
  (C9_update_html_guards ⟨none, true, ["r1"], none⟩).2.1 rfl

/-- Witness for C3: an interrupted save leaves the previously persisted
full document in place, also when stated via the primitive step runs. -/
theorem C3_crash_safety_witness :
    (save_to_file ⟨some (.full (initial_data "t0")), none⟩ (initial_data "t1")
        (.interrupted 0)).stats_file = some (.full (initial_data "t0"))
    ∧ (runSteps ⟨some (.full (initial_data "t0")), none⟩
        [.writeTemp (.truncated (initial_data "t1") 0)]).stats_file
          = some (.full (initial_data "t0")) := by
  constructor
  · exact (C3_crash_safety ⟨some (.full (initial_data "t0")), none⟩ (initial_data "t1") 0).1
  · exact (C3_crash_safety ⟨some (.full (initial_data "t0")), none⟩
      (initial_data "t1") 0).2.2.2.1 [.writeTemp (.truncated (initial_data "t1") 0)]
      (fun s hs => by
        rw [List.mem_singleton] at hs
        subst hs
        exact fun h => SaveStep.noConfusion h)

end TokenUsage
